import Mathlib

/-!
# Verification of the PySWATCal calibration core

Shallow embedding of the calibration/optimization engine of PySWATCal
(`src/pyswatcal/calibration` and `src/pyswatcal/core/parallel_engine.py`),
together with proofs of the stated spec properties.

Modelling conventions:

* A Python float that can be `NaN` is modelled as `Val := Option ℚ`
  (`none` = `NaN`, `some q` = the finite value `q`).  IEEE comparisons with a
  `NaN` operand are false, which the `Val` comparison functions reproduce.
  Overflow/rounding of floats is not modelled: the algorithms only move, copy
  and compare objective values, so exact arithmetic is faithful.
* The metric functions (`objective_functions.py`) involve square roots and
  exponentials, so they are embedded over `ℝ` with `none = NaN` likewise.
* Randomness (`np.random.*`, `scipy.stats.qmc`) is modelled by explicit
  oracle inputs: each draw the source makes is one value of an input stream.
  Properties that rely on the support of a numpy distribution (for instance
  `np.random.uniform(lower, upper)` lies in `[lower, upper]`) take that
  support as a hypothesis on the oracle.
* A Python callable that may raise is modelled as a function into
  `Except String α`; the algorithms catch the exception at the boundary the
  source catches it.
* The result dictionaries the algorithms return are modelled as association
  lists `List (String × _)` so that claims about the *presence* of fields can
  be stated; the entries appear in the order of the Python dict literals.
-/

/-- A possibly-NaN floating point value: `none` is `NaN`. -/
abbrev Val : Type := Option ℚ

/-- IEEE `>` on possibly-NaN values: false whenever either side is `NaN`. -/
def valGt (a b : Val) : Bool :=
  match a, b with
  | some x, some y => decide (y < x)
  | _, _ => false

/-- IEEE `<` on possibly-NaN values: false whenever either side is `NaN`. -/
def valLt (a b : Val) : Bool :=
  match a, b with
  | some x, some y => decide (x < y)
  | _, _ => false

/-- IEEE `>=` on possibly-NaN values: false whenever either side is `NaN`. -/
def valGe (a b : Val) : Bool :=
  match a, b with
  | some x, some y => decide (y ≤ x)
  | _, _ => false

/-- IEEE `<=` on possibly-NaN values: false whenever either side is `NaN`. -/
def valLe (a b : Val) : Bool :=
  match a, b with
  | some x, some y => decide (x ≤ y)
  | _, _ => false

namespace DDS

/-- `DDS._is_better` (dds.py:285-290): `new > current` when maximizing,
`new < current` when minimizing, with IEEE NaN semantics. -/
def isBetter (maximize : Bool) (newValue currentValue : Val) : Bool :=
  if maximize then valGt newValue currentValue
  else valLt newValue currentValue

/-- One pass of the reflection `while` body (dds.py:275-279): mirror at the
lower bound if below it, then mirror at the upper bound if now above it. -/
def reflStep (lower upper v : ℚ) : ℚ :=
  let v1 := if v < lower then lower + (lower - v) else v
  if upper < v1 then upper - (v1 - upper) else v1

/-- How far `v` lies outside `[lower, upper]` (nonpositive inside). -/
def excess (lower upper v : ℚ) : ℚ := max (lower - v) (v - upper)

theorem excess_pos_of_outside {lower upper v : ℚ}
    (hv : v < lower ∨ upper < v) : 0 < excess lower upper v := by
  rcases hv with h | h
  · exact lt_max_of_lt_left (by linarith)
  · exact lt_max_of_lt_right (by linarith)

theorem reflStep_excess_le {lower upper v : ℚ} (h : lower < upper)
    (hv : v < lower ∨ upper < v)
    (hout : reflStep lower upper v < lower ∨ upper < reflStep lower upper v) :
    excess lower upper (reflStep lower upper v)
      ≤ excess lower upper v - (upper - lower) := by
  have he1 : lower - v ≤ excess lower upper v := le_max_left _ _
  have he2 : v - upper ≤ excess lower upper v := le_max_right _ _
  rcases hv with hlt | hgt
  · have hv1 : reflStep lower upper v
        = (if upper < lower + (lower - v) then
            upper - (lower + (lower - v) - upper) else lower + (lower - v)) := by
      unfold reflStep
      rw [if_pos hlt]
    by_cases h2 : upper < lower + (lower - v)
    · rw [hv1, if_pos h2]
      apply max_le <;> linarith
    · rw [hv1, if_neg h2] at hout ⊢
      rcases hout with hbad | hbad
      · apply max_le <;> linarith
      · exact absurd hbad h2
  · have hnl : ¬ v < lower := by linarith
    have hv1 : reflStep lower upper v
        = (if upper < v then upper - (v - upper) else v) := by
      unfold reflStep
      rw [if_neg hnl]
    rw [hv1, if_pos hgt] at hout ⊢
    rcases hout with hbad | hbad
    · apply max_le <;> linarith
    · apply max_le <;> linarith

theorem natCeil_lt_natCeil {a b : ℚ} (hab : a ≤ b - 1) (hb : 0 < b) :
    ⌈a⌉₊ < ⌈b⌉₊ := by
  rcases le_or_lt 0 a with ha | ha
  · rw [Nat.lt_ceil]
    calc (⌈a⌉₊ : ℚ) < a + 1 := Nat.ceil_lt_add_one ha
    _ ≤ b := by linarith
  · have h0 : ⌈a⌉₊ = 0 := Nat.ceil_eq_zero.mpr ha.le
    rw [h0]
    exact Nat.ceil_pos.mpr hb

theorem reflect_measure_decreases {lower upper v : ℚ} (h : lower < upper)
    (hv : v < lower ∨ upper < v) :
    ⌈excess lower upper (reflStep lower upper v) / (upper - lower)⌉₊
      < ⌈excess lower upper v / (upper - lower)⌉₊ := by
  have hd : (0 : ℚ) < upper - lower := by linarith
  have he : 0 < excess lower upper v := excess_pos_of_outside hv
  by_cases hout : reflStep lower upper v < lower ∨ upper < reflStep lower upper v
  · apply natCeil_lt_natCeil
    · have hle := reflStep_excess_le h hv hout
      rw [div_le_iff₀ hd]
      calc excess lower upper (reflStep lower upper v)
          ≤ excess lower upper v - (upper - lower) := hle
        _ = (excess lower upper v / (upper - lower) - 1) * (upper - lower) := by
            field_simp
    · exact div_pos he hd
  · push_neg at hout
    have hin : excess lower upper (reflStep lower upper v) ≤ 0 :=
      max_le (by linarith [hout.1]) (by linarith [hout.2])
    have h0 : ⌈excess lower upper (reflStep lower upper v) / (upper - lower)⌉₊ = 0 :=
      Nat.ceil_eq_zero.mpr (div_nonpos_of_nonpos_of_nonneg hin hd.le)
    rw [h0]
    exact Nat.ceil_pos.mpr (div_pos he hd)

/-- The reflection loop of `_perturb_parameters` (dds.py:274-279): repeatedly
mirror an out-of-bounds value across the violated bound until it lies inside
`[lower, upper]`.  For `lower ≥ upper` the source loop would not terminate,
but the constructor rejects such bounds; the embedding returns `v` there. -/
def reflect (lower upper v : ℚ) : ℚ :=
  if h : lower < upper then
    if hv : v < lower ∨ upper < v then
      reflect lower upper (reflStep lower upper v)
    else v
  else v
termination_by ⌈excess lower upper v / (upper - lower)⌉₊
decreasing_by exact reflect_measure_decreases h hv

theorem reflect_mem (lower upper v : ℚ) (h : lower < upper) :
    lower ≤ reflect lower upper v ∧ reflect lower upper v ≤ upper := by
  induction v using reflect.induct lower upper with
  | case1 x hlt hout ih =>
    rw [reflect.eq_def, dif_pos hlt, dif_pos hout]
    exact ih
  | case2 x hlt hin =>
    rw [reflect.eq_def, dif_pos hlt, dif_neg hin]
    push_neg at hin
    exact ⟨hin.1, hin.2⟩
  | case3 x hnlt => exact absurd h hnlt

/-- One history entry (dds.py:292-304): the five parallel lists of
`self.history`, one slot per evaluation. -/
structure HistEntry where
  iteration : ℕ
  objectiveValue : Val
  bestValue : Val
  nPerturbed : ℕ
  parameters : List ℚ
deriving DecidableEq

/-- The mutable search state of a DDS run, plus a ghost `evalCount` that
counts the calls made to the objective callable (instrumentation only; the
source has no such field). -/
structure State where
  bestParams : List ℚ
  bestValue : Val
  history : List HistEntry
  evalCount : ℕ
deriving DecidableEq

/-- The random draws one iteration consumes: `mask` is the boolean vector
`np.random.random(n) < prob` (dds.py:152), `fallback` the
`np.random.randint(n)` used when no dimension was selected (dds.py:156), and
`draws` the `np.random.normal(0, r·(upper−lower))` perturbation per
dimension (dds.py:271). -/
structure IterDraws where
  mask : List Bool
  fallback : ℕ
  draws : List ℚ

/-- `_update_history` (dds.py:292-304): append one entry recording the
evaluated vector, its value, and the incumbent best value. -/
def updateHistory (st : State) (iteration : ℕ) (params : List ℚ) (value : Val)
    (nPerturbed : ℕ) : State :=
  { st with history := st.history ++
      [⟨iteration, value, st.bestValue, nPerturbed, params⟩] }

/-- `_random_initial` (dds.py:231-236): one `np.random.uniform(lower, upper)`
per dimension, modelled as `lower + u·(upper−lower)` with `u` the unit
draw. -/
def randomInitial (bounds : List (ℚ × ℚ)) (us : List ℚ) : List ℚ :=
  List.zipWith (fun b u => b.1 + u * (b.2 - b.1)) bounds us

/-- Force-include one random dimension when the mask came out all false
(dds.py:155-156); `randint(n)` is modelled as `fallback % n`. -/
def forceMask (mask : List Bool) (fallback : ℕ) : List Bool :=
  if mask.any id then mask else mask.set (fallback % mask.length) true

/-- `_perturb_parameters` (dds.py:251-283): perturb each masked dimension of
the current best vector by its normal draw, reflecting back into bounds. -/
def perturb : List (ℚ × ℚ) → List ℚ → List Bool → List ℚ → List ℚ
  | b :: bs, p :: ps, m :: ms, d :: ds =>
      (if m then reflect b.1 b.2 (p + d) else p) :: perturb bs ps ms ds
  | _, _, _, _ => []

/-- One iteration of the main loop (dds.py:147-191): build the mask, perturb
the best vector, evaluate, accept if strictly better, append history.  A
raised exception carries the state accumulated so far out to the handler. -/
def iterStep (bounds : List (ℚ × ℚ)) (objective : List ℚ → Except String Val)
    (maximize : Bool) (iteration : ℕ) (dr : IterDraws) (st : State) :
    Except (State × String) State :=
  let mask := forceMask dr.mask dr.fallback
  let nPerturbed := mask.count true
  let newParams := perturb bounds st.bestParams mask dr.draws
  match objective newParams with
  | .error e => .error (st, e)
  | .ok newValue =>
      let st1 := { st with evalCount := st.evalCount + 1 }
      let st2 := if isBetter maximize newValue st1.bestValue then
          { st1 with bestParams := newParams, bestValue := newValue }
        else st1
      .ok (updateHistory st2 iteration newParams newValue nPerturbed)

/-- The main loop over iterations `t, t+1, …` with their random draws. -/
def loop (bounds : List (ℚ × ℚ)) (objective : List ℚ → Except String Val)
    (maximize : Bool) : ℕ → List IterDraws → State →
    Except (State × String) State
  | _, [], st => .ok st
  | t, dr :: rest, st =>
      match iterStep bounds objective maximize t dr st with
      | .error p => .error p
      | .ok st2 => loop bounds objective maximize (t + 1) rest st2

/-- The values stored in a result dictionary; `dur` marks the wall-clock
`duration` entry, whose numeric value is not modelled. -/
inductive RVal where
  | params (p : Option (List ℚ))
  | val (v : Option Val)
  | nat (n : ℕ)
  | hist (h : List HistEntry)
  | bool (b : Bool)
  | str (s : String)
  | dur
deriving DecidableEq

/-- Dictionary lookup on a result association list. -/
def lookup (res : List (String × RVal)) (k : String) : Option RVal :=
  (res.find? (fun p => p.1 == k)).map (·.2)

/-- The success dictionary (dds.py:211-218). -/
def successDict (nIterations : ℕ) (st : State) : List (String × RVal) :=
  [("best_params", .params (some st.bestParams)),
   ("best_value", .val (some st.bestValue)),
   ("n_evaluations", .nat nIterations),
   ("history", .hist st.history),
   ("success", .bool true),
   ("duration", .dur)]

/-- The failure dictionary (dds.py:222-229) built from the state the handler
sees; it has no `duration` entry. -/
def failDict (bestParams : Option (List ℚ)) (bestValue : Option Val)
    (history : List HistEntry) (e : String) : List (String × RVal) :=
  [("best_params", .params bestParams),
   ("best_value", .val bestValue),
   ("n_evaluations", .nat history.length),
   ("history", .hist history),
   ("success", .bool false),
   ("error", .str e)]

/-- `DDS.optimize` (dds.py:101-229) for a caller-supplied (or already drawn)
initial vector: evaluate it, seed the best, run `iters.length` iterations,
and return the success dictionary, or on a raised exception the failure
dictionary carrying the best-so-far state (`None` fields when the initial
evaluation itself raised, matching `self.best_params = None` from
`__init__`). -/
def optimize (bounds : List (ℚ × ℚ)) (objective : List ℚ → Except String Val)
    (maximize : Bool) (initParams : List ℚ) (iters : List IterDraws) :
    List (String × RVal) :=
  match objective initParams with
  | .error e => failDict none none [] e
  | .ok v0 =>
      let st0 : State :=
        (⟨initParams, v0, [], 1⟩ : DDS.State)
      let st1 := updateHistory st0 0 initParams v0 0
      match loop bounds objective maximize 1 iters st1 with
      | .ok st => successDict iters.length st
      | .error (st, e) => failDict (some st.bestParams) (some st.bestValue)
          st.history e

end DDS

/-- C1: the DDS run result under-reports the evaluation count.  On a
successful one-iteration run the result's `n_evaluations` field is `1`
(`self.n_iterations`, dds.py:214) although the objective callable was
invoked twice — once for the initial vector and once in the iteration — as
the ghost `evalCount = 2` of the final state shows.  The claimed (and
documented) value `n_iterations + 1` differs from the reported field. -/
theorem dds_underreports_evaluations :
    DDS.optimize [((0 : ℚ), 1)] (fun _ => Except.ok (some 0)) true [0]
        [⟨[true], 0, [0]⟩]
      = DDS.successDict 1 ⟨[0], some 0,
          [⟨0, some 0, some 0, 0, [0]⟩, ⟨1, some 0, some 0, 1, [0]⟩], 2⟩ ∧
    DDS.lookup (DDS.successDict 1 ⟨[0], some 0,
          [⟨0, some 0, some 0, 0, [0]⟩, ⟨1, some 0, some 0, 1, [0]⟩], 2⟩)
        "n_evaluations" = some (.nat 1) ∧
    (⟨[0], some 0, [⟨0, some 0, some 0, 0, [0]⟩, ⟨1, some 0, some 0, 1, [0]⟩],
        2⟩ : DDS.State).evalCount = 2 ∧
    (1 : ℕ) ≠ 2 := by
  refine ⟨?_, rfl, rfl, by decide⟩
  have hrefl : DDS.reflect 0 1 ((0 : ℚ)) = 0 := by
    rw [DDS.reflect.eq_def]
    norm_num
  norm_num [DDS.optimize, DDS.loop, DDS.iterStep, DDS.perturb, DDS.forceMask,
    DDS.updateHistory, DDS.isBetter, valGt, hrefl]

theorem dds_isBetter_nan_incumbent (maximize : Bool) (v : Val) :
    DDS.isBetter maximize v none = false := by
  cases maximize <;> cases v <;> rfl

theorem dds_loop_preserves_nan (bounds : List (ℚ × ℚ))
    (objective : List ℚ → Except String Val) (maximize : Bool)
    (hok : ∀ p, ∃ v, objective p = Except.ok v) :
    ∀ (iters : List DDS.IterDraws) (t : ℕ) (st : DDS.State),
      st.bestValue = none →
      ∃ st', DDS.loop bounds objective maximize t iters st = .ok st' ∧
        st'.bestValue = none := by
  intro iters
  induction iters with
  | nil => exact fun t st h => ⟨st, rfl, h⟩
  | cons dr rest ih =>
    intro t st h
    obtain ⟨v, hv⟩ := hok (DDS.perturb bounds st.bestParams
      (DDS.forceMask dr.mask dr.fallback) dr.draws)
    have hstep : DDS.iterStep bounds objective maximize t dr st
        = .ok (DDS.updateHistory { st with evalCount := st.evalCount + 1 } t
            (DDS.perturb bounds st.bestParams
              (DDS.forceMask dr.mask dr.fallback) dr.draws) v
            ((DDS.forceMask dr.mask dr.fallback).count true)) := by
      simp only [DDS.iterStep]
      rw [hv]
      simp only [h, dds_isBetter_nan_incumbent]
      simp
    rw [DDS.loop, hstep]
    exact ih (t + 1) _ h

/-- C10: if the initial evaluation of a DDS run returns NaN and no later
evaluation raises, the NaN incumbent persists for the whole run: the strict
acceptance comparison is false against a NaN incumbent for every later
value, so the run completes with `success = true` and
`best_value = NaN`. -/
theorem dds_nan_initial_value_sticks (bounds : List (ℚ × ℚ))
    (objective : List ℚ → Except String Val) (maximize : Bool)
    (initParams : List ℚ) (iters : List DDS.IterDraws)
    (hinit : objective initParams = Except.ok none)
    (hok : ∀ p, ∃ v, objective p = Except.ok v) :
    DDS.lookup (DDS.optimize bounds objective maximize initParams iters)
        "success" = some (.bool true) ∧
    DDS.lookup (DDS.optimize bounds objective maximize initParams iters)
        "best_value" = some (.val (some none)) := by
  obtain ⟨st', hloop, hnan⟩ := dds_loop_preserves_nan bounds objective maximize
    hok iters 1 (DDS.updateHistory
      { bestParams := initParams, bestValue := none, history := [],
        evalCount := 1 } 0 initParams none 0) rfl
  have hopt : DDS.optimize bounds objective maximize initParams iters
      = (match DDS.loop bounds objective maximize 1 iters (DDS.updateHistory
          { bestParams := initParams, bestValue := none, history := [],
            evalCount := 1 } 0 initParams none 0) with
        | .ok st => DDS.successDict iters.length st
        | .error (st, e) => DDS.failDict (some st.bestParams)
            (some st.bestValue) st.history e) := by
    unfold DDS.optimize
    rw [hinit]
  rw [hopt, hloop]
  constructor
  · rfl
  · show some (DDS.RVal.val (some st'.bestValue)) = some (.val (some none))
    rw [hnan]

/-- Witness for C10: a concrete one-iteration DDS run whose objective always
returns NaN reports success with a NaN best value. -/
theorem dds_nan_initial_value_sticks_witness :
    DDS.lookup (DDS.optimize [((0 : ℚ), 1)] (fun _ => Except.ok none) true [0]
        [⟨[true], 0, [0]⟩]) "success" = some (.bool true) ∧
    DDS.lookup (DDS.optimize [((0 : ℚ), 1)] (fun _ => Except.ok none) true [0]
        [⟨[true], 0, [0]⟩]) "best_value" = some (.val (some none)) :=
  dds_nan_initial_value_sticks [((0 : ℚ), 1)] (fun _ => Except.ok none) true
    [0] [⟨[true], 0, [0]⟩] rfl (fun _ => ⟨none, rfl⟩)

namespace PSO

/-- `PSO._is_better` (pso.py:227-232): `new > current` when maximizing,
`new < current` when minimizing, with IEEE NaN semantics. -/
def isBetter (maximize : Bool) (newValue currentValue : Val) : Bool :=
  if maximize then valGt newValue currentValue
  else valLt newValue currentValue

/-- One history entry (pso.py:234-239): iteration index, global best, best
and mean fitness of the swarm this iteration. -/
structure PHistEntry where
  iteration : ℕ
  globalBestValue : Val
  swarmBestValue : Val
  swarmMeanValue : Val
deriving DecidableEq

/-- The swarm state, plus the ghost `evalCount` counting objective calls. -/
structure PState where
  positions : List (List ℚ)
  velocities : List (List ℚ)
  fitness : List Val
  personalBestPos : List (List ℚ)
  personalBestVal : List Val
  globalBestPos : List ℚ
  globalBestVal : Val
  history : List PHistEntry
  evalCount : ℕ
deriving DecidableEq

/-- `np.max`/`np.min` over a fitness array: NaN-propagating fold. -/
def valFoldExtreme (op : ℚ → ℚ → ℚ) : List Val → Val
  | [] => none
  | v :: rest => rest.foldl (fun a b =>
      match a, b with
      | some x, some y => some (op x y)
      | _, _ => none) v

/-- `np.mean` over a fitness array: NaN if any entry is NaN. -/
def valMean (l : List Val) : Val :=
  if l.contains none then none
  else some ((l.map (fun v => v.getD 0)).sum / l.length)

/-- `np.argmax`/`np.argmin` semantics: first index of the running extreme,
treating NaN as more extreme than any number. -/
def npArgBest (pref : Val → Val → Bool) (l : List Val) : ℕ :=
  (l.enum.foldl (fun acc p => if pref p.2 acc.2 then p else acc)
    (0, l.getD 0 none)).1

/-- `np.argmax(fitness)` (pso.py:132). -/
def argmax (l : List Val) : ℕ :=
  npArgBest (fun v cur => valGt v cur || (v == none && !(cur == none))) l

/-- `np.argmin(fitness)` (pso.py:132). -/
def argmin (l : List Val) : ℕ :=
  npArgBest (fun v cur => valLt v cur || (v == none && !(cur == none))) l

/-- `_initialize_swarm` (pso.py:205-218): positions uniform inside bounds
(`lower + u·(upper−lower)` per unit draw `pu i j`), velocities uniform in
`±0.2·(upper−lower)` (`−v_max + w·2·v_max` per unit draw `vu i j`). -/
def initSwarm (bounds : List (ℚ × ℚ)) (nP : ℕ) (pu vu : ℕ → ℕ → ℚ) :
    List (List ℚ) × List (List ℚ) :=
  ((List.range nP).map (fun i => bounds.enum.map (fun bj =>
      bj.2.1 + pu i bj.1 * (bj.2.2 - bj.2.1))),
   (List.range nP).map (fun i => bounds.enum.map (fun bj =>
      -((1 : ℚ)/5 * (bj.2.2 - bj.2.1))
        + vu i bj.1 * (2 * ((1 : ℚ)/5 * (bj.2.2 - bj.2.1))))))

/-- The initial evaluation loop (pso.py:123-125): evaluate every particle in
index order, aborting at the first raised exception. -/
def evalAll (objective : List ℚ → Except String Val) :
    List (List ℚ) → Except String (List Val)
  | [] => .ok []
  | p :: ps =>
      match objective p with
      | .error e => .error e
      | .ok v =>
          match evalAll objective ps with
          | .error e => .error e
          | .ok vs => .ok (v :: vs)

/-- The velocity update (pso.py:142-146):
`w·v + c1·r1·(pbest − pos) + c2·r2·(gbest − pos)` per dimension. -/
def velUpdate (w c1 c2 r1 r2 : ℚ) :
    List ℚ → List ℚ → List ℚ → List ℚ → List ℚ
  | v :: vs, pb :: pbs, p :: ps, g :: gs =>
      (w * v + c1 * r1 * (pb - p) + c2 * r2 * (g - p))
        :: velUpdate w c1 c2 r1 r2 vs pbs ps gs
  | _, _, _, _ => []

/-- `_apply_bounds` (pso.py:220-225): `np.clip` each component into its
bound interval. -/
def applyBounds (bounds : List (ℚ × ℚ)) (position : List ℚ) : List ℚ :=
  List.zipWith (fun b x => min (max x b.1) b.2) bounds position

/-- One particle update (pso.py:140-165): move, clip, evaluate, update
personal and global bests.  A raised exception carries the state (with the
already-mutated position and velocity) to the handler. -/
def particleStep (bounds : List (ℚ × ℚ))
    (objective : List ℚ → Except String Val) (w c1 c2 : ℚ) (maximize : Bool)
    (rs : ℕ → ℚ × ℚ) (st : PState) (i : ℕ) :
    Except (PState × String) PState :=
  let r1 := (rs i).1
  let r2 := (rs i).2
  let newVel := velUpdate w c1 c2 r1 r2 (st.velocities.getD i [])
    (st.personalBestPos.getD i []) (st.positions.getD i []) st.globalBestPos
  let newPos := applyBounds bounds
    (List.zipWith (· + ·) (st.positions.getD i []) newVel)
  match objective newPos with
  | .error e => .error ({ st with
      positions := st.positions.set i newPos,
      velocities := st.velocities.set i newVel }, e)
  | .ok fv =>
      let st1 := { st with
        positions := st.positions.set i newPos,
        velocities := st.velocities.set i newVel,
        fitness := st.fitness.set i fv,
        evalCount := st.evalCount + 1 }
      let st2 := if isBetter maximize fv (st1.personalBestVal.getD i none) then
          { st1 with
            personalBestPos := st1.personalBestPos.set i newPos,
            personalBestVal := st1.personalBestVal.set i fv }
        else st1
      if isBetter maximize fv st2.globalBestVal then
        .ok { st2 with globalBestPos := newPos, globalBestVal := fv }
      else .ok st2

/-- The inner `for i in range(self.n_particles)` loop (pso.py:140). -/
def particlesLoop (bounds : List (ℚ × ℚ))
    (objective : List ℚ → Except String Val) (w c1 c2 : ℚ) (maximize : Bool)
    (rs : ℕ → ℚ × ℚ) : List ℕ → PState → Except (PState × String) PState
  | [], st => .ok st
  | i :: rest, st =>
      match particleStep bounds objective w c1 c2 maximize rs st i with
      | .error p => .error p
      | .ok st2 => particlesLoop bounds objective w c1 c2 maximize rs rest st2

/-- `_update_history` (pso.py:234-239). -/
def updateHistoryP (st : PState) (iteration : ℕ) (maximize : Bool) : PState :=
  { st with history := st.history ++
      [⟨iteration, st.globalBestVal,
        (if maximize then valFoldExtreme max st.fitness
         else valFoldExtreme min st.fitness),
        valMean st.fitness⟩] }

/-- The outer `for iteration in range(self.n_iterations)` loop
(pso.py:139-176); `rs t i` are the two fresh uniform draws of particle `i`
at iteration `t`. -/
def iterLoop (bounds : List (ℚ × ℚ))
    (objective : List ℚ → Except String Val) (w c1 c2 : ℚ) (maximize : Bool)
    (nP : ℕ) (rs : ℕ → ℕ → ℚ × ℚ) :
    List ℕ → PState → Except (PState × String) PState
  | [], st => .ok st
  | t :: ts, st =>
      match particlesLoop bounds objective w c1 c2 maximize (rs t)
          (List.range nP) st with
      | .error p => .error p
      | .ok st2 => iterLoop bounds objective w c1 c2 maximize nP rs ts
          (updateHistoryP st2 t maximize)

/-- The values stored in a PSO result dictionary. -/
inductive RVal where
  | params (p : Option (List ℚ))
  | val (v : Option Val)
  | nat (n : ℕ)
  | hist (h : List PHistEntry)
  | bool (b : Bool)
  | str (s : String)
  | dur
deriving DecidableEq

/-- Dictionary lookup on a PSO result association list. -/
def lookup (res : List (String × RVal)) (k : String) : Option RVal :=
  (res.find? (fun p => p.1 == k)).map (·.2)

/-- `PSO.optimize` (pso.py:108-203): initialize and evaluate the swarm, seed
personal and global bests, run the iterations, and return the success
dictionary (pso.py:185-192), or on a raised exception the failure dictionary
(pso.py:196-203) carrying the best-so-far state; the failure dictionary has
no `duration` entry. -/
def optimize (bounds : List (ℚ × ℚ))
    (objective : List ℚ → Except String Val) (nP nIter : ℕ) (w c1 c2 : ℚ)
    (maximize : Bool) (pu vu : ℕ → ℕ → ℚ) (rs : ℕ → ℕ → ℚ × ℚ) :
    List (String × RVal) :=
  let positions := (initSwarm bounds nP pu vu).1
  let velocities := (initSwarm bounds nP pu vu).2
  match evalAll objective positions with
  | .error e =>
      [("best_params", .params none), ("best_value", .val none),
       ("n_evaluations", .nat 0), ("history", .hist []),
       ("success", .bool false), ("error", .str e)]
  | .ok fits =>
      let bi := if maximize then argmax fits else argmin fits
      let st0 : PState :=
        { positions := positions, velocities := velocities, fitness := fits,
          personalBestPos := positions, personalBestVal := fits,
          globalBestPos := positions.getD bi [],
          globalBestVal := fits.getD bi none,
          history := [], evalCount := nP }
      match iterLoop bounds objective w c1 c2 maximize nP rs
          (List.range nIter) st0 with
      | .ok st =>
          [("best_params", .params (some st.globalBestPos)),
           ("best_value", .val (some st.globalBestVal)),
           ("n_evaluations", .nat (nP * nIter)),
           ("history", .hist st.history),
           ("success", .bool true), ("duration", .dur)]
      | .error (st, e) =>
          [("best_params", .params (some st.globalBestPos)),
           ("best_value", .val (some st.globalBestVal)),
           ("n_evaluations", .nat (st.history.length * nP)),
           ("history", .hist st.history),
           ("success", .bool false), ("error", .str e)]

end PSO

/-- C2: the PSO run result under-reports the evaluation count.  On a
successful run with 2 particles and 1 iteration the result's
`n_evaluations` field is `2` (`n_particles * n_iterations`, pso.py:188)
although the objective callable was invoked four times — the initial swarm
evaluation plus one call per particle in the iteration — as the ghost
`evalCount` rising from 2 to 4 = `n_particles·(n_iterations+1)` shows. -/
theorem pso_underreports_evaluations :
    PSO.optimize [((0 : ℚ), 1)] (fun _ => Except.ok (some 0)) 2 1 0 1 1 true
        (fun _ _ => 0) (fun _ _ => 0) (fun _ _ => (0, 0))
      = [("best_params", .params (some [0])),
         ("best_value", .val (some (some 0))),
         ("n_evaluations", .nat 2),
         ("history", .hist [⟨0, some 0, some 0, some 0⟩]),
         ("success", .bool true), ("duration", .dur)] ∧
    PSO.iterLoop [((0 : ℚ), 1)] (fun _ => Except.ok (some 0)) 0 1 1 true 2
        (fun _ _ => (0, 0)) (List.range 1)
        ⟨[[0], [0]], [[-(1/5)], [-(1/5)]], [some 0, some 0], [[0], [0]],
          [some 0, some 0], [0], some 0, [], 2⟩
      = Except.ok ⟨[[0], [0]], [[0], [0]], [some 0, some 0], [[0], [0]],
          [some 0, some 0], [0], some 0, [⟨0, some 0, some 0, some 0⟩], 4⟩ ∧
    (2 : ℕ) ≠ 4 := by
  refine ⟨?_, ?_, by decide⟩
  · norm_num [PSO.optimize, PSO.initSwarm, PSO.evalAll, PSO.argmax,
      PSO.npArgBest, PSO.iterLoop, PSO.particlesLoop, PSO.particleStep,
      PSO.velUpdate, PSO.applyBounds, PSO.updateHistoryP, PSO.valFoldExtreme,
      PSO.valMean, PSO.isBetter, valGt, List.enum, List.enumFrom,
      List.range_succ]
  · norm_num [PSO.iterLoop, PSO.particlesLoop, PSO.particleStep,
      PSO.velUpdate, PSO.applyBounds, PSO.updateHistoryP, PSO.valFoldExtreme,
      PSO.valMean, PSO.isBetter, valGt, List.range_succ]

/-! ## Bounds invariants (DDS reflection, PSO clamping) -/

/-- Componentwise membership of a parameter vector in its bounds, false on a
length mismatch. -/
def inBoundsB : List (ℚ × ℚ) → List ℚ → Bool
  | [], [] => true
  | b :: bs, x :: xs => decide (b.1 ≤ x) && decide (x ≤ b.2) && inBoundsB bs xs
  | _ :: _, [] => false
  | [], _ :: _ => false

theorem inBoundsB_length : ∀ (bounds : List (ℚ × ℚ)) (xs : List ℚ),
    inBoundsB bounds xs = true → xs.length = bounds.length := by
  intro bounds
  induction bounds with
  | nil => intro xs h; cases xs with
    | nil => rfl
    | cons x xs => exact absurd h (by simp [inBoundsB])
  | cons b bs ih =>
    intro xs h
    cases xs with
    | nil => exact absurd h (by simp [inBoundsB])
    | cons x xs =>
      simp only [inBoundsB, Bool.and_eq_true] at h
      simp [ih xs h.2]

theorem dds_randomInitial_inBounds (bounds : List (ℚ × ℚ)) (us : List ℚ)
    (hb : ∀ b ∈ bounds, b.1 < b.2) (hlen : us.length = bounds.length)
    (hus : ∀ u ∈ us, 0 ≤ u ∧ u ≤ 1) :
    inBoundsB bounds (DDS.randomInitial bounds us) = true := by
  induction bounds generalizing us with
  | nil =>
    cases us with
    | nil => rfl
    | cons u us => exact absurd hlen (by simp)
  | cons b bs ih =>
    cases us with
    | nil => exact absurd hlen (by simp)
    | cons u us =>
      have hu := hus u (List.mem_cons_self u us)
      have hb1 := hb b (List.mem_cons_self b bs)
      have h1 : 0 ≤ u * (b.2 - b.1) := mul_nonneg hu.1 (by linarith)
      have h2 : u * (b.2 - b.1) ≤ b.2 - b.1 := by nlinarith
      simp only [DDS.randomInitial, List.zipWith_cons_cons, inBoundsB,
        Bool.and_eq_true, decide_eq_true_eq]
      refine ⟨⟨by linarith, by linarith⟩, ?_⟩
      exact ih us (fun x hx => hb x (List.mem_cons_of_mem b hx)) (by simpa using hlen)
        (fun x hx => hus x (List.mem_cons_of_mem u hx))

theorem dds_perturb_inBounds : ∀ (bounds : List (ℚ × ℚ)) (ps : List ℚ)
    (mask : List Bool) (draws : List ℚ),
    (∀ b ∈ bounds, b.1 < b.2) → inBoundsB bounds ps = true →
    mask.length = bounds.length → draws.length = bounds.length →
    inBoundsB bounds (DDS.perturb bounds ps mask draws) = true := by
  intro bounds
  induction bounds with
  | nil =>
    intro ps mask draws _ hp hm hd
    cases ps with
    | nil =>
      cases mask with
      | nil =>
        cases draws with
        | nil => rfl
        | cons d ds => exact absurd hd (by simp)
      | cons m ms => exact absurd hm (by simp)
    | cons p ps => exact absurd hp (by simp [inBoundsB])
  | cons b bs ih =>
    intro ps mask draws hb hp hm hd
    cases ps with
    | nil => exact absurd hp (by simp [inBoundsB])
    | cons p ps =>
      cases mask with
      | nil => exact absurd hm (by simp)
      | cons m ms =>
        cases draws with
        | nil => exact absurd hd (by simp)
        | cons d ds =>
          have hb1 := hb b (List.mem_cons_self b bs)
          simp only [inBoundsB, Bool.and_eq_true, decide_eq_true_eq] at hp
          have htail := ih ps ms ds
            (fun x hx => hb x (List.mem_cons_of_mem b hx)) hp.2
            (by simpa using hm) (by simpa using hd)
          simp only [DDS.perturb, inBoundsB, Bool.and_eq_true,
            decide_eq_true_eq]
          refine ⟨?_, htail⟩
          by_cases hmm : m = true

          · rw [hmm, if_pos rfl]
            exact DDS.reflect_mem b.1 b.2 (p + d) hb1
          · rw [if_neg (by simpa using hmm)]
            exact hp.1

/-- The state invariant C3 needs for DDS: best vector and every recorded
history vector are inside bounds. -/
def DDSInv (bounds : List (ℚ × ℚ)) (st : DDS.State) : Prop :=
  inBoundsB bounds st.bestParams = true ∧
  ∀ e ∈ st.history, inBoundsB bounds e.parameters = true

theorem dds_forceMask_length (mask : List Bool) (fallback : ℕ) :
    (DDS.forceMask mask fallback).length = mask.length := by
  unfold DDS.forceMask
  by_cases h : mask.any id
  · rw [if_pos h]
  · rw [if_neg h, List.length_set]

theorem dds_iterStep_inv (bounds : List (ℚ × ℚ))
    (objective : List ℚ → Except String Val) (maximize : Bool) (t : ℕ)
    (dr : DDS.IterDraws) (st : DDS.State)
    (hb : ∀ b ∈ bounds, b.1 < b.2)
    (hm : dr.mask.length = bounds.length)
    (hd : dr.draws.length = bounds.length)
    (hst : DDSInv bounds st) :
    (∀ st', DDS.iterStep bounds objective maximize t dr st = .ok st' →
      DDSInv bounds st') ∧
    (∀ st' e, DDS.iterStep bounds objective maximize t dr st
        = .error (st', e) → DDSInv bounds st') := by
  have hnew : inBoundsB bounds (DDS.perturb bounds st.bestParams
      (DDS.forceMask dr.mask dr.fallback) dr.draws) = true :=
    dds_perturb_inBounds bounds st.bestParams _ dr.draws hb hst.1
      (by rw [dds_forceMask_length]; exact hm) hd
  simp only [DDS.iterStep]
  cases hobj : objective (DDS.perturb bounds st.bestParams
      (DDS.forceMask dr.mask dr.fallback) dr.draws) with
  | error e =>
    refine ⟨fun st' h => by simp at h, fun st' e' h => ?_⟩
    simp only [Except.error.injEq, Prod.mk.injEq] at h
    rw [← h.1]
    exact hst
  | ok v =>
    refine ⟨fun st' h => ?_, fun st' e' h => by simp at h⟩
    simp only [Except.ok.injEq] at h
    rw [← h]
    by_cases hbet : DDS.isBetter maximize v st.bestValue = true
    · simp only [hbet, if_true, DDS.updateHistory]
      refine ⟨hnew, ?_⟩
      intro e he
      rcases List.mem_append.mp he with h1 | h1
      · exact hst.2 e h1
      · rcases List.mem_singleton.mp h1 with rfl
        exact hnew
    · simp only [Bool.not_eq_true] at hbet
      simp only [hbet, Bool.false_eq_true, if_false, DDS.updateHistory]
      refine ⟨hst.1, ?_⟩
      intro e he
      rcases List.mem_append.mp he with h1 | h1
      · exact hst.2 e h1
      · rcases List.mem_singleton.mp h1 with rfl
        exact hnew

theorem dds_loop_inv (bounds : List (ℚ × ℚ))
    (objective : List ℚ → Except String Val) (maximize : Bool)
    (hb : ∀ b ∈ bounds, b.1 < b.2) :
    ∀ (iters : List DDS.IterDraws) (t : ℕ) (st : DDS.State),
      (∀ dr ∈ iters, dr.mask.length = bounds.length ∧
        dr.draws.length = bounds.length) →
      DDSInv bounds st →
      (∀ st', DDS.loop bounds objective maximize t iters st = .ok st' →
        DDSInv bounds st') ∧
      (∀ st' e, DDS.loop bounds objective maximize t iters st
          = .error (st', e) → DDSInv bounds st') := by
  intro iters
  induction iters with
  | nil =>
    intro t st _ hst
    refine ⟨fun st' h => ?_, fun st' e h => by simp [DDS.loop] at h⟩
    simp only [DDS.loop, Except.ok.injEq] at h
    rw [← h]
    exact hst
  | cons dr rest ih =>
    intro t st hlens hst
    have hdr := hlens dr (List.mem_cons_self dr rest)
    have hstep := dds_iterStep_inv bounds objective maximize t dr st hb
      hdr.1 hdr.2 hst
    constructor
    · intro st' h
      rw [DDS.loop] at h
      cases hs : DDS.iterStep bounds objective maximize t dr st with
      | error p =>
        rw [hs] at h
        simp at h
      | ok st2 =>
        rw [hs] at h
        exact (ih (t + 1) st2
          (fun x hx => hlens x (List.mem_cons_of_mem dr hx))
          (hstep.1 st2 hs)).1 st' h
    · intro st' e h
      rw [DDS.loop] at h
      cases hs : DDS.iterStep bounds objective maximize t dr st with
      | error p =>
        rw [hs] at h
        simp only [Except.error.injEq] at h
        have hp : p = (st', e) := h
        exact hstep.2 st' e (by rw [hs, hp])
      | ok st2 =>
        rw [hs] at h
        exact (ih (t + 1) st2
          (fun x hx => hlens x (List.mem_cons_of_mem dr hx))
          (hstep.1 st2 hs)).2 st' e h

theorem pso_applyBounds_inBounds : ∀ (bounds : List (ℚ × ℚ)) (pos : List ℚ),
    (∀ b ∈ bounds, b.1 < b.2) → pos.length = bounds.length →
    inBoundsB bounds (PSO.applyBounds bounds pos) = true := by
  intro bounds
  induction bounds with
  | nil =>
    intro pos _ hlen
    cases pos with
    | nil => rfl
    | cons p ps => exact absurd hlen (by simp)
  | cons b bs ih =>
    intro pos hb hlen
    cases pos with
    | nil => exact absurd hlen (by simp)
    | cons p ps =>
      have hb1 := hb b (List.mem_cons_self b bs)
      simp only [PSO.applyBounds, List.zipWith_cons_cons, inBoundsB,
        Bool.and_eq_true, decide_eq_true_eq]
      refine ⟨⟨le_min (le_max_right _ _) hb1.le, min_le_right _ _⟩, ?_⟩
      exact ih ps (fun x hx => hb x (List.mem_cons_of_mem b hx))
        (by simpa using hlen)

theorem pso_velUpdate_length (w c1 c2 r1 r2 : ℚ) :
    ∀ (vs pbs ps gs : List ℚ) (n : ℕ), vs.length = n → pbs.length = n →
    ps.length = n → gs.length = n →
    (PSO.velUpdate w c1 c2 r1 r2 vs pbs ps gs).length = n := by
  intro vs
  induction vs with
  | nil =>
    intro pbs ps gs n h1 _ _ _
    rw [← h1]
    rfl
  | cons v vtl ih =>
    intro pbs ps gs n h1 h2 h3 h4
    cases pbs with
    | nil => rw [← h2] at h1; exact absurd h1 (by simp)
    | cons pb pbs =>
      cases ps with
      | nil => rw [← h3] at h1; exact absurd h1 (by simp)
      | cons p ps =>
        cases gs with
        | nil => rw [← h4] at h1; exact absurd h1 (by simp)
        | cons g gs =>
          cases n with
          | zero => exact absurd h1 (by simp)
          | succ n =>
            simp only [PSO.velUpdate, List.length_cons, Nat.succ.injEq]
            exact ih pbs ps gs n (by simpa using h1) (by simpa using h2)
              (by simpa using h3) (by simpa using h4)

/-- The swarm-state invariant C3 needs for PSO: the slot lists keep their
particle count, every stored row has the right dimension, and the global
best vector lies inside bounds. -/
def PSOInv (bounds : List (ℚ × ℚ)) (nP : ℕ) (st : PSO.PState) : Prop :=
  st.positions.length = nP ∧ st.velocities.length = nP ∧
  st.personalBestPos.length = nP ∧
  (∀ p ∈ st.positions, p.length = bounds.length) ∧
  (∀ v ∈ st.velocities, v.length = bounds.length) ∧
  (∀ p ∈ st.personalBestPos, p.length = bounds.length) ∧
  inBoundsB bounds st.globalBestPos = true

theorem pso_particleStep_inv (bounds : List (ℚ × ℚ))
    (objective : List ℚ → Except String Val) (w c1 c2 : ℚ) (maximize : Bool)
    (rs : ℕ → ℚ × ℚ) (st : PSO.PState) (i : ℕ) (nP : ℕ)
    (hb : ∀ b ∈ bounds, b.1 < b.2) (hi : i < nP)
    (hst : PSOInv bounds nP st) :
    (∀ st', PSO.particleStep bounds objective w c1 c2 maximize rs st i
        = .ok st' → PSOInv bounds nP st') ∧
    (∀ st' e, PSO.particleStep bounds objective w c1 c2 maximize rs st i
        = .error (st', e) → PSOInv bounds nP st') := by
  obtain ⟨hp, hv, hpb, hprow, hvrow, hpbrow, hg⟩ := hst
  have hiv : i < st.velocities.length := by rw [hv]; exact hi
  have hip : i < st.positions.length := by rw [hp]; exact hi
  have hipb : i < st.personalBestPos.length := by rw [hpb]; exact hi
  have hvl : (st.velocities.getD i []).length = bounds.length := by
    rw [List.getD_eq_getElem _ _ hiv]
    exact hvrow _ (List.getElem_mem hiv)
  have hpl : (st.positions.getD i []).length = bounds.length := by
    rw [List.getD_eq_getElem _ _ hip]
    exact hprow _ (List.getElem_mem hip)
  have hpbl : (st.personalBestPos.getD i []).length = bounds.length := by
    rw [List.getD_eq_getElem _ _ hipb]
    exact hpbrow _ (List.getElem_mem hipb)
  have hgl : st.globalBestPos.length = bounds.length := inBoundsB_length _ _ hg
  have hnvl : (PSO.velUpdate w c1 c2 (rs i).1 (rs i).2
      (st.velocities.getD i []) (st.personalBestPos.getD i [])
      (st.positions.getD i []) st.globalBestPos).length = bounds.length :=
    pso_velUpdate_length _ _ _ _ _ _ _ _ _ _ hvl hpbl hpl hgl
  have hnpl : (List.zipWith (· + ·) (st.positions.getD i [])
      (PSO.velUpdate w c1 c2 (rs i).1 (rs i).2 (st.velocities.getD i [])
        (st.personalBestPos.getD i []) (st.positions.getD i [])
        st.globalBestPos)).length = bounds.length := by
    rw [List.length_zipWith, hpl, hnvl, min_self]
  have hnp : inBoundsB bounds (PSO.applyBounds bounds
      (List.zipWith (· + ·) (st.positions.getD i [])
        (PSO.velUpdate w c1 c2 (rs i).1 (rs i).2 (st.velocities.getD i [])
          (st.personalBestPos.getD i []) (st.positions.getD i [])
          st.globalBestPos))) = true :=
    pso_applyBounds_inBounds bounds _ hb hnpl
  have hnplen : (PSO.applyBounds bounds
      (List.zipWith (· + ·) (st.positions.getD i [])
        (PSO.velUpdate w c1 c2 (rs i).1 (rs i).2 (st.velocities.getD i [])
          (st.personalBestPos.getD i []) (st.positions.getD i [])
          st.globalBestPos))).length = bounds.length :=
    inBoundsB_length _ _ hnp
  have hsetpos : ∀ x ∈ st.positions.set i (PSO.applyBounds bounds
      (List.zipWith (· + ·) (st.positions.getD i [])
        (PSO.velUpdate w c1 c2 (rs i).1 (rs i).2 (st.velocities.getD i [])
          (st.personalBestPos.getD i []) (st.positions.getD i [])
          st.globalBestPos))), x.length = bounds.length := by
    intro x hx
    rcases List.mem_or_eq_of_mem_set hx with h1 | h1
    · exact hprow x h1
    · rw [h1]; exact hnplen
  have hsetvel : ∀ x ∈ st.velocities.set i (PSO.velUpdate w c1 c2 (rs i).1
      (rs i).2 (st.velocities.getD i []) (st.personalBestPos.getD i [])
      (st.positions.getD i []) st.globalBestPos),
      x.length = bounds.length := by
    intro x hx
    rcases List.mem_or_eq_of_mem_set hx with h1 | h1
    · exact hvrow x h1
    · rw [h1]; exact hnvl
  have hsetpb : ∀ x ∈ st.personalBestPos.set i (PSO.applyBounds bounds
      (List.zipWith (· + ·) (st.positions.getD i [])
        (PSO.velUpdate w c1 c2 (rs i).1 (rs i).2 (st.velocities.getD i [])
          (st.personalBestPos.getD i []) (st.positions.getD i [])
          st.globalBestPos))), x.length = bounds.length := by
    intro x hx
    rcases List.mem_or_eq_of_mem_set hx with h1 | h1
    · exact hpbrow x h1
    · rw [h1]; exact hnplen
  constructor
  · intro st' h
    simp only [PSO.particleStep] at h
    split at h
    · simp at h
    · split at h <;> split at h <;>
        (injection h with h; rw [← h]) <;>
        exact ⟨by simp [hp], by simp [hv], by simp [hpb], hsetpos, hsetvel,
          (by first | exact hpbrow | exact hsetpb),
          (by first | exact hg | exact hnp)⟩
  · intro st' e' h
    simp only [PSO.particleStep] at h
    split at h
    · injection h with h
      simp only [Prod.mk.injEq] at h
      rw [← h.1]
      exact ⟨by simp [hp], by simp [hv], hpb, hsetpos, hsetvel, hpbrow, hg⟩
    · split at h <;> split at h <;> simp at h

theorem pso_updateHistoryP_inv (bounds : List (ℚ × ℚ)) (nP : ℕ)
    (st : PSO.PState) (t : ℕ) (maximize : Bool) (hst : PSOInv bounds nP st) :
    PSOInv bounds nP (PSO.updateHistoryP st t maximize) := by
  obtain ⟨h1, h2, h3, h4, h5, h6, h7⟩ := hst
  exact ⟨h1, h2, h3, h4, h5, h6, h7⟩

theorem pso_particlesLoop_inv (bounds : List (ℚ × ℚ))
    (objective : List ℚ → Except String Val) (w c1 c2 : ℚ) (maximize : Bool)
    (rs : ℕ → ℚ × ℚ) (nP : ℕ) (hb : ∀ b ∈ bounds, b.1 < b.2) :
    ∀ (idxs : List ℕ) (st : PSO.PState), (∀ i ∈ idxs, i < nP) →
    PSOInv bounds nP st →
    (∀ st', PSO.particlesLoop bounds objective w c1 c2 maximize rs idxs st
        = .ok st' → PSOInv bounds nP st') ∧
    (∀ st' e, PSO.particlesLoop bounds objective w c1 c2 maximize rs idxs st
        = .error (st', e) → PSOInv bounds nP st') := by
  intro idxs
  induction idxs with
  | nil =>
    intro st _ hst
    refine ⟨fun st' h => ?_, fun st' e h => by simp [PSO.particlesLoop] at h⟩
    simp only [PSO.particlesLoop, Except.ok.injEq] at h
    rw [← h]
    exact hst
  | cons i rest ih =>
    intro st hidx hst
    have hstep := pso_particleStep_inv bounds objective w c1 c2 maximize rs
      st i nP hb (hidx i (List.mem_cons_self i rest)) hst
    constructor
    · intro st' h
      rw [PSO.particlesLoop] at h
      cases hs : PSO.particleStep bounds objective w c1 c2 maximize rs st i with
      | error p => rw [hs] at h; simp at h
      | ok st2 =>
        rw [hs] at h
        exact (ih st2 (fun x hx => hidx x (List.mem_cons_of_mem i hx))
          (hstep.1 st2 hs)).1 st' h
    · intro st' e h
      rw [PSO.particlesLoop] at h
      cases hs : PSO.particleStep bounds objective w c1 c2 maximize rs st i with
      | error p =>
        rw [hs] at h
        simp only [Except.error.injEq] at h
        exact hstep.2 st' e (by rw [hs, h])
      | ok st2 =>
        rw [hs] at h
        exact (ih st2 (fun x hx => hidx x (List.mem_cons_of_mem i hx))
          (hstep.1 st2 hs)).2 st' e h

theorem pso_iterLoop_inv (bounds : List (ℚ × ℚ))
    (objective : List ℚ → Except String Val) (w c1 c2 : ℚ) (maximize : Bool)
    (nP : ℕ) (rs : ℕ → ℕ → ℚ × ℚ) (hb : ∀ b ∈ bounds, b.1 < b.2) :
    ∀ (ts : List ℕ) (st : PSO.PState), PSOInv bounds nP st →
    (∀ st', PSO.iterLoop bounds objective w c1 c2 maximize nP rs ts st
        = .ok st' → PSOInv bounds nP st') ∧
    (∀ st' e, PSO.iterLoop bounds objective w c1 c2 maximize nP rs ts st
        = .error (st', e) → PSOInv bounds nP st') := by
  intro ts
  induction ts with
  | nil =>
    intro st hst
    refine ⟨fun st' h => ?_, fun st' e h => by simp [PSO.iterLoop] at h⟩
    simp only [PSO.iterLoop, Except.ok.injEq] at h
    rw [← h]
    exact hst
  | cons t rest ih =>
    intro st hst
    have hinner := pso_particlesLoop_inv bounds objective w c1 c2 maximize
      (rs t) nP hb (List.range nP) st (fun i hi => List.mem_range.mp hi) hst
    constructor
    · intro st' h
      rw [PSO.iterLoop] at h
      cases hs : PSO.particlesLoop bounds objective w c1 c2 maximize (rs t)
          (List.range nP) st with
      | error p => rw [hs] at h; simp at h
      | ok st2 =>
        rw [hs] at h
        exact (ih (PSO.updateHistoryP st2 t maximize)
          (pso_updateHistoryP_inv bounds nP st2 t maximize
            (hinner.1 st2 hs))).1 st' h
    · intro st' e h
      rw [PSO.iterLoop] at h
      cases hs : PSO.particlesLoop bounds objective w c1 c2 maximize (rs t)
          (List.range nP) st with
      | error p =>
        rw [hs] at h
        simp only [Except.error.injEq] at h
        exact hinner.2 st' e (by rw [hs, h])
      | ok st2 =>
        rw [hs] at h
        exact (ih (PSO.updateHistoryP st2 t maximize)
          (pso_updateHistoryP_inv bounds nP st2 t maximize
            (hinner.1 st2 hs))).2 st' e h

theorem enumFrom_scaled_inBounds (u' : ℕ → ℚ)
    (hu : ∀ j, 0 ≤ u' j ∧ u' j ≤ 1) :
    ∀ (bounds : List (ℚ × ℚ)) (k : ℕ), (∀ b ∈ bounds, b.1 < b.2) →
    inBoundsB bounds ((List.enumFrom k bounds).map
      (fun bj => bj.2.1 + u' bj.1 * (bj.2.2 - bj.2.1))) = true := by
  intro bounds
  induction bounds with
  | nil => intro k _; rfl
  | cons b bs ih =>
    intro k hb
    have hb1 := hb b (List.mem_cons_self b bs)
    have hu1 := hu k
    have h1 : 0 ≤ u' k * (b.2 - b.1) := mul_nonneg hu1.1 (by linarith)
    have h2 : u' k * (b.2 - b.1) ≤ b.2 - b.1 := by nlinarith
    simp only [List.enumFrom_cons, List.map_cons, inBoundsB,
      Bool.and_eq_true, decide_eq_true_eq]
    exact ⟨⟨by linarith, by linarith⟩,
      ih (k + 1) (fun x hx => hb x (List.mem_cons_of_mem b hx))⟩

theorem pso_initSwarm_shape (bounds : List (ℚ × ℚ)) (nP : ℕ)
    (pu vu : ℕ → ℕ → ℚ) :
    (PSO.initSwarm bounds nP pu vu).1.length = nP ∧
    (PSO.initSwarm bounds nP pu vu).2.length = nP ∧
    (∀ row ∈ (PSO.initSwarm bounds nP pu vu).1,
      row.length = bounds.length) ∧
    (∀ row ∈ (PSO.initSwarm bounds nP pu vu).2,
      row.length = bounds.length) := by
  refine ⟨by simp [PSO.initSwarm], by simp [PSO.initSwarm], ?_, ?_⟩
  · intro row hrow
    simp only [PSO.initSwarm, List.mem_map] at hrow
    obtain ⟨i, _, rfl⟩ := hrow
    simp [List.enum]
  · intro row hrow
    simp only [PSO.initSwarm, List.mem_map] at hrow
    obtain ⟨i, _, rfl⟩ := hrow
    simp [List.enum]

theorem pso_initSwarm_inBounds (bounds : List (ℚ × ℚ)) (nP : ℕ)
    (pu vu : ℕ → ℕ → ℚ) (hb : ∀ b ∈ bounds, b.1 < b.2)
    (hpu : ∀ i j, 0 ≤ pu i j ∧ pu i j ≤ 1) :
    ∀ row ∈ (PSO.initSwarm bounds nP pu vu).1,
      inBoundsB bounds row = true := by
  intro row hrow
  simp only [PSO.initSwarm, List.mem_map] at hrow
  obtain ⟨i, _, rfl⟩ := hrow
  exact enumFrom_scaled_inBounds (pu i) (fun j => hpu i j) bounds 0 hb

theorem mem_enumFrom_fst_lt {α : Type} :
    ∀ (l : List α) (k : ℕ) (p : ℕ × α), p ∈ List.enumFrom k l →
      p.1 < k + l.length := by
  intro l
  induction l with
  | nil => intro k p hp; simp [List.enumFrom] at hp
  | cons x xs ih =>
    intro k p hp
    rw [List.enumFrom_cons] at hp
    rcases List.mem_cons.mp hp with h | h
    · rw [h]; simp
    · have := ih (k + 1) p h
      simp only [List.length_cons]
      omega

theorem pso_npArgBest_lt (pref : Val → Val → Bool) (l : List Val)
    (hne : l ≠ []) : PSO.npArgBest pref l < l.length := by
  have hfold : ∀ (ps : List (ℕ × Val)) (acc : ℕ × Val),
      acc.1 < l.length → (∀ p ∈ ps, p.1 < l.length) →
      (ps.foldl (fun a p => if pref p.2 a.2 then p else a) acc).1
        < l.length := by
    intro ps
    induction ps with
    | nil => intro acc hacc _; exact hacc
    | cons p rest ih =>
      intro acc hacc hps
      rw [List.foldl_cons]
      by_cases hc : pref p.2 acc.2 = true
      · rw [if_pos hc]
        exact ih p (hps p (List.mem_cons_self p rest))
          (fun q hq => hps q (List.mem_cons_of_mem p hq))
      · rw [if_neg (by simpa using hc)]
        exact ih acc hacc (fun q hq => hps q (List.mem_cons_of_mem p hq))
  unfold PSO.npArgBest
  apply hfold
  · exact List.length_pos.mpr hne
  · intro p hp
    have := mem_enumFrom_fst_lt l 0 p (by simpa [List.enum] using hp)
    simpa using this

theorem pso_evalAll_length (objective : List ℚ → Except String Val) :
    ∀ (ps : List (List ℚ)) (vs : List Val),
      PSO.evalAll objective ps = .ok vs → vs.length = ps.length := by
  intro ps
  induction ps with
  | nil =>
    intro vs h
    simp only [PSO.evalAll, Except.ok.injEq] at h
    rw [← h]
    rfl
  | cons p rest ih =>
    intro vs h
    rw [PSO.evalAll] at h
    cases h1 : objective p with
    | error e => rw [h1] at h; simp at h
    | ok v =>
      rw [h1] at h
      cases h2 : PSO.evalAll objective rest with
      | error e => rw [h2] at h; simp at h
      | ok vs2 =>
        rw [h2] at h
        simp only [Except.ok.injEq] at h
        rw [← h]
        simp [ih vs2 h2]

theorem dds_lookup_failDict_history (a : Option (List ℚ)) (b : Option Val)
    (h : List DDS.HistEntry) (e : String) :
    DDS.lookup (DDS.failDict a b h e) "history" = some (.hist h) := rfl

theorem dds_lookup_failDict_best (a : Option (List ℚ)) (b : Option Val)
    (h : List DDS.HistEntry) (e : String) :
    DDS.lookup (DDS.failDict a b h e) "best_params" = some (.params a) := rfl

theorem dds_lookup_successDict_history (n : ℕ) (st : DDS.State) :
    DDS.lookup (DDS.successDict n st) "history"
      = some (.hist st.history) := rfl

theorem dds_lookup_successDict_best (n : ℕ) (st : DDS.State) :
    DDS.lookup (DDS.successDict n st) "best_params"
      = some (.params (some st.bestParams)) := rfl

theorem dds_optimize_inBounds (bounds : List (ℚ × ℚ))
    (objective : List ℚ → Except String Val) (maximize : Bool)
    (initParams : List ℚ) (iters : List DDS.IterDraws)
    (hb : ∀ b ∈ bounds, b.1 < b.2)
    (hinit : inBoundsB bounds initParams = true)
    (hlens : ∀ dr ∈ iters, dr.mask.length = bounds.length ∧
      dr.draws.length = bounds.length) :
    (∀ hist, DDS.lookup (DDS.optimize bounds objective maximize initParams
        iters) "history" = some (.hist hist) →
      ∀ e ∈ hist, inBoundsB bounds e.parameters = true) ∧
    (∀ p, DDS.lookup (DDS.optimize bounds objective maximize initParams
        iters) "best_params" = some (.params (some p)) →
      inBoundsB bounds p = true) := by
  cases hobj : objective initParams with
  | error e =>
    have hres : DDS.optimize bounds objective maximize initParams iters
        = DDS.failDict none none [] e := by
      unfold DDS.optimize
      rw [hobj]
    constructor
    · intro hist hlook
      rw [hres, dds_lookup_failDict_history] at hlook
      simp only [Option.some.injEq, DDS.RVal.hist.injEq] at hlook
      intro x hx
      rw [← hlook] at hx
      simp at hx
    · intro p hlook
      rw [hres, dds_lookup_failDict_best] at hlook
      simp at hlook
  | ok v0 =>
    have hst1 : DDSInv bounds (DDS.updateHistory
        (⟨initParams, v0, [], 1⟩ : DDS.State) 0 initParams v0 0) := by
      refine ⟨hinit, ?_⟩
      intro x hx
      simp only [DDS.updateHistory, List.nil_append,
        List.mem_singleton] at hx
      rw [hx]
      exact hinit
    have hopt : DDS.optimize bounds objective maximize initParams iters
        = (match DDS.loop bounds objective maximize 1 iters
            (DDS.updateHistory (⟨initParams, v0, [], 1⟩ : DDS.State) 0 initParams v0 0) with
          | .ok st => DDS.successDict iters.length st
          | .error (st, e) => DDS.failDict (some st.bestParams)
              (some st.bestValue) st.history e) := by
      unfold DDS.optimize
      rw [hobj]
    have hloopinv := dds_loop_inv bounds objective maximize hb iters 1
      (DDS.updateHistory (⟨initParams, v0, [], 1⟩ : DDS.State) 0 initParams v0 0) hlens hst1
    cases hloop : DDS.loop bounds objective maximize 1 iters
        (DDS.updateHistory (⟨initParams, v0, [], 1⟩ : DDS.State) 0 initParams v0 0) with
    | ok st =>
      have hinv := hloopinv.1 st hloop
      rw [hopt, hloop]
      constructor
      · intro hist hlook
        rw [dds_lookup_successDict_history] at hlook
        simp only [Option.some.injEq, DDS.RVal.hist.injEq] at hlook
        intro x hx
        rw [← hlook] at hx
        exact hinv.2 x hx
      · intro p hlook
        rw [dds_lookup_successDict_best] at hlook
        simp only [Option.some.injEq, DDS.RVal.params.injEq] at hlook
        rw [← hlook]
        exact hinv.1
    | error pe =>
      obtain ⟨st, e⟩ := pe
      have hinv := hloopinv.2 st e hloop
      rw [hopt, hloop]
      constructor
      · intro hist hlook
        rw [dds_lookup_failDict_history] at hlook
        simp only [Option.some.injEq, DDS.RVal.hist.injEq] at hlook
        intro x hx
        rw [← hlook] at hx
        exact hinv.2 x hx
      · intro p hlook
        rw [dds_lookup_failDict_best] at hlook
        simp only [Option.some.injEq, DDS.RVal.params.injEq,
          Option.some.injEq] at hlook
        rw [← hlook]
        exact hinv.1

theorem pso_optimize_inBounds (bounds : List (ℚ × ℚ))
    (objective : List ℚ → Except String Val) (nP nIter : ℕ) (w c1 c2 : ℚ)
    (maximize : Bool) (pu vu : ℕ → ℕ → ℚ) (rs : ℕ → ℕ → ℚ × ℚ)
    (hb : ∀ b ∈ bounds, b.1 < b.2) (hnP : 1 ≤ nP)
    (hpu : ∀ i j, 0 ≤ pu i j ∧ pu i j ≤ 1) :
    ∀ p, PSO.lookup (PSO.optimize bounds objective nP nIter w c1 c2 maximize
        pu vu rs) "best_params" = some (.params (some p)) →
      inBoundsB bounds p = true := by
  obtain ⟨hplen, hvlen, hprow, hvrow⟩ := pso_initSwarm_shape bounds nP pu vu
  cases hev : PSO.evalAll objective (PSO.initSwarm bounds nP pu vu).1 with
  | error e =>
    have hres : PSO.optimize bounds objective nP nIter w c1 c2 maximize
        pu vu rs
        = [("best_params", .params none), ("best_value", .val none),
           ("n_evaluations", .nat 0), ("history", .hist []),
           ("success", .bool false), ("error", .str e)] := by
      simp only [PSO.optimize]
      rw [hev]
    intro p hlook
    rw [hres] at hlook
    have : PSO.lookup [("best_params", PSO.RVal.params none),
        ("best_value", .val none), ("n_evaluations", .nat 0),
        ("history", .hist []), ("success", .bool false),
        ("error", .str e)] "best_params" = some (.params none) := rfl
    rw [this] at hlook
    simp at hlook
  | ok fits =>
    have hflen : fits.length = nP := by
      rw [pso_evalAll_length objective _ fits hev, hplen]
    have hfne : fits ≠ [] := by
      intro hcon
      rw [hcon] at hflen
      simp at hflen
      omega
    have hbi : (if maximize then PSO.argmax fits else PSO.argmin fits)
        < nP := by
      cases maximize with
      | true =>
        rw [if_pos rfl, ← hflen]
        exact pso_npArgBest_lt _ fits hfne
      | false =>
        rw [if_neg (by simp), ← hflen]
        exact pso_npArgBest_lt _ fits hfne
    have hbip : (if maximize then PSO.argmax fits else PSO.argmin fits)
        < (PSO.initSwarm bounds nP pu vu).1.length := by rw [hplen]; exact hbi
    have hst0 : PSOInv bounds nP
        (⟨(PSO.initSwarm bounds nP pu vu).1,
          (PSO.initSwarm bounds nP pu vu).2, fits,
          (PSO.initSwarm bounds nP pu vu).1, fits,
          (PSO.initSwarm bounds nP pu vu).1.getD
            (if maximize then PSO.argmax fits else PSO.argmin fits) [],
          fits.getD (if maximize then PSO.argmax fits else PSO.argmin fits)
            none, [], nP⟩ : PSO.PState) := by
      refine ⟨hplen, hvlen, hplen, hprow, hvrow, hprow, ?_⟩
      rw [List.getD_eq_getElem _ _ hbip]
      exact pso_initSwarm_inBounds bounds nP pu vu hb hpu _
        (List.getElem_mem hbip)
    have hloopinv := pso_iterLoop_inv bounds objective w c1 c2 maximize nP rs
      hb (List.range nIter) _ hst0
    have hopt : PSO.optimize bounds objective nP nIter w c1 c2 maximize
        pu vu rs
        = (match PSO.iterLoop bounds objective w c1 c2 maximize nP rs
            (List.range nIter)
            (⟨(PSO.initSwarm bounds nP pu vu).1,
              (PSO.initSwarm bounds nP pu vu).2, fits,
              (PSO.initSwarm bounds nP pu vu).1, fits,
              (PSO.initSwarm bounds nP pu vu).1.getD
                (if maximize then PSO.argmax fits else PSO.argmin fits) [],
              fits.getD
                (if maximize then PSO.argmax fits else PSO.argmin fits)
                none, [], nP⟩ : PSO.PState) with
          | .ok st =>
              [("best_params", .params (some st.globalBestPos)),
               ("best_value", .val (some st.globalBestVal)),
               ("n_evaluations", .nat (nP * nIter)),
               ("history", .hist st.history),
               ("success", .bool true), ("duration", .dur)]
          | .error (st, e) =>
              [("best_params", .params (some st.globalBestPos)),
               ("best_value", .val (some st.globalBestVal)),
               ("n_evaluations", .nat (st.history.length * nP)),
               ("history", .hist st.history),
               ("success", .bool false), ("error", .str e)]) := by
      simp only [PSO.optimize]
      rw [hev]
    intro p hlook
    rw [hopt] at hlook
    cases hloop : PSO.iterLoop bounds objective w c1 c2 maximize nP rs
        (List.range nIter)
        (⟨(PSO.initSwarm bounds nP pu vu).1,
          (PSO.initSwarm bounds nP pu vu).2, fits,
          (PSO.initSwarm bounds nP pu vu).1, fits,
          (PSO.initSwarm bounds nP pu vu).1.getD
            (if maximize then PSO.argmax fits else PSO.argmin fits) [],
          fits.getD (if maximize then PSO.argmax fits else PSO.argmin fits)
            none, [], nP⟩ : PSO.PState) with
    | ok st =>
      rw [hloop] at hlook
      have hget : PSO.lookup [("best_params",
          PSO.RVal.params (some st.globalBestPos)),
          ("best_value", .val (some st.globalBestVal)),
          ("n_evaluations", .nat (nP * nIter)),
          ("history", .hist st.history),
          ("success", .bool true), ("duration", .dur)] "best_params"
          = some (.params (some st.globalBestPos)) := rfl
      rw [hget] at hlook
      simp only [Option.some.injEq, PSO.RVal.params.injEq] at hlook
      rw [← hlook]
      exact ((hloopinv.1 st hloop).2.2.2.2.2.2)
    | error pe =>
      obtain ⟨st, e⟩ := pe
      rw [hloop] at hlook
      have hget : PSO.lookup [("best_params",
          PSO.RVal.params (some st.globalBestPos)),
          ("best_value", .val (some st.globalBestVal)),
          ("n_evaluations", .nat (st.history.length * nP)),
          ("history", .hist st.history),
          ("success", .bool false), ("error", .str e)] "best_params"
          = some (.params (some st.globalBestPos)) := rfl
      rw [hget] at hlook
      simp only [Option.some.injEq, PSO.RVal.params.injEq] at hlook
      rw [← hlook]
      exact ((hloopinv.2 st e hloop).2.2.2.2.2.2)

/-- C3: for all valid bounds and every DDS or PSO run, every parameter
vector recorded in the history and the returned best vector lie within the
per-dimension bounds — DDS keeps vectors inside by repeated reflection (and
its random initialization already samples inside each interval), PSO by
clamping; the property holds for every DDS history entry, not only the
final best (PSO history entries record only scalar statistics, no
vectors). -/
theorem bounds_invariant_dds_pso :
    (∀ (bounds : List (ℚ × ℚ)) (objective : List ℚ → Except String Val)
        (maximize : Bool) (initParams : List ℚ)
        (iters : List DDS.IterDraws),
      (∀ b ∈ bounds, b.1 < b.2) → inBoundsB bounds initParams = true →
      (∀ dr ∈ iters, dr.mask.length = bounds.length ∧
        dr.draws.length = bounds.length) →
      (∀ hist, DDS.lookup (DDS.optimize bounds objective maximize initParams
          iters) "history" = some (.hist hist) →
        ∀ e ∈ hist, inBoundsB bounds e.parameters = true) ∧
      (∀ p, DDS.lookup (DDS.optimize bounds objective maximize initParams
          iters) "best_params" = some (.params (some p)) →
        inBoundsB bounds p = true)) ∧
    (∀ (bounds : List (ℚ × ℚ)) (us : List ℚ),
      (∀ b ∈ bounds, b.1 < b.2) → us.length = bounds.length →
      (∀ u ∈ us, 0 ≤ u ∧ u ≤ 1) →
      inBoundsB bounds (DDS.randomInitial bounds us) = true) ∧
    (∀ (bounds : List (ℚ × ℚ)) (objective : List ℚ → Except String Val)
        (nP nIter : ℕ) (w c1 c2 : ℚ) (maximize : Bool)
        (pu vu : ℕ → ℕ → ℚ) (rs : ℕ → ℕ → ℚ × ℚ),
      (∀ b ∈ bounds, b.1 < b.2) → 1 ≤ nP →
      (∀ i j, 0 ≤ pu i j ∧ pu i j ≤ 1) →
      ∀ p, PSO.lookup (PSO.optimize bounds objective nP nIter w c1 c2
          maximize pu vu rs) "best_params" = some (.params (some p)) →
        inBoundsB bounds p = true) :=
  ⟨fun bounds objective maximize initParams iters hb hinit hlens =>
    dds_optimize_inBounds bounds objective maximize initParams iters hb
      hinit hlens,
   fun bounds us hb hlen hus =>
    dds_randomInitial_inBounds bounds us hb hlen hus,
   fun bounds objective nP nIter w c1 c2 maximize pu vu rs hb hnP hpu =>
    pso_optimize_inBounds bounds objective nP nIter w c1 c2 maximize pu vu
      rs hb hnP hpu⟩

/-- Witness for C3 at concrete runs: the best vector of a one-iteration DDS
run over bounds `[(0,2)]`, the random initial vector drawn with unit draw
`1/2` over `[(0,1)]`, and the best vector of a 2-particle PSO run over
`[(0,1)]` all lie inside their bounds. -/
theorem bounds_invariant_dds_pso_witness :
    inBoundsB [((0 : ℚ), 2)] [1] = true ∧
    inBoundsB [((0 : ℚ), 1)] (DDS.randomInitial [((0 : ℚ), 1)] [1/2])
      = true ∧
    inBoundsB [((0 : ℚ), 1)] [0] = true := by
  have h := bounds_invariant_dds_pso
  refine ⟨?_, ?_, ?_⟩
  · have hrefl : DDS.reflect 0 2 ((1 : ℚ)) = 1 := by
      rw [DDS.reflect.eq_def]
      norm_num
    have hres : DDS.optimize [((0 : ℚ), 2)] (fun _ => Except.ok (some 0))
        true [1] [⟨[true], 0, [0]⟩]
        = DDS.successDict 1 ⟨[1], some 0,
            [⟨0, some 0, some 0, 0, [1]⟩, ⟨1, some 0, some 0, 1, [1]⟩],
            2⟩ := by
      norm_num [DDS.optimize, DDS.loop, DDS.iterStep, DDS.perturb,
        DDS.forceMask, DDS.updateHistory, DDS.isBetter, valGt, hrefl]
    refine (h.1 [((0 : ℚ), 2)] (fun _ => Except.ok (some 0)) true [1]
      [⟨[true], 0, [0]⟩] ?_ ?_ ?_).2 [1] ?_
    · intro b hbm
      simp only [List.mem_singleton] at hbm
      rw [hbm]
      norm_num
    · norm_num [inBoundsB]
    · intro dr hdr
      simp only [List.mem_singleton] at hdr
      rw [hdr]
      exact ⟨rfl, rfl⟩
    · rw [hres]
      rfl
  · refine h.2.1 [((0 : ℚ), 1)] [1/2] ?_ rfl ?_
    · intro b hbm
      simp only [List.mem_singleton] at hbm
      rw [hbm]
      norm_num
    · intro u hu
      simp only [List.mem_singleton] at hu
      rw [hu]
      norm_num
  · have hres : PSO.optimize [((0 : ℚ), 1)] (fun _ => Except.ok (some 0))
        2 1 0 1 1 true (fun _ _ => 0) (fun _ _ => 0) (fun _ _ => (0, 0))
        = [("best_params", .params (some [0])),
           ("best_value", .val (some (some 0))),
           ("n_evaluations", .nat 2),
           ("history", .hist [⟨0, some 0, some 0, some 0⟩]),
           ("success", .bool true), ("duration", .dur)] := by
      norm_num [PSO.optimize, PSO.initSwarm, PSO.evalAll, PSO.argmax,
        PSO.npArgBest, PSO.iterLoop, PSO.particlesLoop, PSO.particleStep,
        PSO.velUpdate, PSO.applyBounds, PSO.updateHistoryP,
        PSO.valFoldExtreme, PSO.valMean, PSO.isBetter, valGt, List.enum,
        List.enumFrom, List.range_succ]
    refine h.2.2 [((0 : ℚ), 1)] (fun _ => Except.ok (some 0)) 2 1 0 1 1
      true (fun _ _ => 0) (fun _ _ => 0) (fun _ _ => (0, 0)) ?_
      (by omega) ?_ [0] ?_
    · intro b hbm
      simp only [List.mem_singleton] at hbm
      rw [hbm]
      norm_num
    · intro i j
      norm_num
    · rw [hres]
      rfl

/-! ## Objective Function Layer (`calibration/objective_functions.py`)

The metric cores are embedded over `ℝ`, applied to the arrays as they stand
after `_validate_inputs` (which checks equal shapes and, under the default
`handle_nan="ignore"` policy, drops index pairs where either entry is NaN).
The embedded lists therefore hold genuinely finite values, and `none` in the
result again stands for NaN. -/

namespace Metrics

/-- `np.mean` of a list of reals (sum divided by length). -/
noncomputable def mean (xs : List ℝ) : ℝ := xs.sum / xs.length

/-- `np.std` with the numpy default `ddof=0`:
square root of the mean squared deviation. -/
noncomputable def std (xs : List ℝ) : ℝ :=
  Real.sqrt (((xs.map (fun a => (a - mean xs) ^ 2)).sum) / xs.length)

/-- `np.corrcoef(observed, simulated)[0, 1]` (Pearson correlation):
`Σ(o−ō)(s−s̄) / √(Σ(o−ō)²·Σ(s−s̄)²)`, NaN when either deviation sum is zero
(numpy then divides 0 by 0). -/
noncomputable def pearson (o s : List ℝ) : Option ℝ :=
  let vo := (o.map (fun a => (a - mean o) ^ 2)).sum
  let vs := (s.map (fun a => (a - mean s) ^ 2)).sum
  let cov := (List.zipWith (fun a b => (a - mean o) * (b - mean s)) o s).sum
  if vo = 0 ∨ vs = 0 then none
  else some (cov / (Real.sqrt vo * Real.sqrt vs))

/-- `nse` (objective_functions.py:26-58): `1 − Σ(o−s)²/Σ(o−mean o)²`,
NaN on the empty series or a zero denominator. -/
noncomputable def nse (o s : List ℝ) : Option ℝ :=
  if o.length = 0 then none
  else
    let numerator := (List.zipWith (fun a b => (a - b) ^ 2) o s).sum
    let denominator := (o.map (fun a => (a - mean o) ^ 2)).sum
    if denominator = 0 then none
    else some (1 - numerator / denominator)

/-- `kge` (objective_functions.py:61-117) with component weights `w`:
`1 − √(w₁(r−1)² + w₂(α−1)² + w₃(β−1)²)`, NaN on the empty series or whenever
`r`, `α = std s/std o` or `β = mean s/mean o` is undefined. -/
noncomputable def kge (o s : List ℝ) (w : ℝ × ℝ × ℝ) : Option ℝ :=
  if o.length = 0 then none
  else
    let alpha : Option ℝ := if std o = 0 then none else some (std s / std o)
    let beta : Option ℝ := if mean o = 0 then none else some (mean s / mean o)
    match pearson o s, alpha, beta with
    | some r, some a, some b =>
        some (1 - Real.sqrt (w.1 * (r - 1) ^ 2 + w.2.1 * (a - 1) ^ 2 +
          w.2.2 * (b - 1) ^ 2))
    | _, _, _ => none

/-- `rmse` (objective_functions.py:120-142): `√(mean (o−s)²)`,
NaN on the empty series. -/
noncomputable def rmse (o s : List ℝ) : Option ℝ :=
  if o.length = 0 then none
  else some (Real.sqrt ((List.zipWith (fun a b => (a - b) ^ 2) o s).sum / o.length))

/-- `pbias` (objective_functions.py:145-172): `100·Σ(s−o)/Σo`,
NaN on the empty series or when `Σo = 0`. -/
noncomputable def pbias (o s : List ℝ) : Option ℝ :=
  if o.length = 0 then none
  else if o.sum = 0 then none
  else some (100 * (List.zipWith (fun a b => b - a) o s).sum / o.sum)

/-- `r_squared` (objective_functions.py:175-197): squared Pearson
correlation, NaN when the correlation is undefined. -/
noncomputable def r_squared (o s : List ℝ) : Option ℝ :=
  (pearson o s).map (fun r => r ^ 2)

/-- `mae` (objective_functions.py:200-221): `mean |o−s|`,
NaN on the empty series. -/
noncomputable def mae (o s : List ℝ) : Option ℝ :=
  if o.length = 0 then none
  else some ((List.zipWith (fun a b => |a - b|) o s).sum / o.length)

theorem sqDev_sum_nonneg (o : List ℝ) :
    0 ≤ (o.map (fun a => (a - mean o) ^ 2)).sum := by
  apply List.sum_nonneg
  intro x hx
  obtain ⟨a, _, rfl⟩ := List.mem_map.mp hx
  positivity

theorem pearson_self (o : List ℝ)
    (hv : (o.map (fun a => (a - mean o) ^ 2)).sum ≠ 0) :
    pearson o o = some 1 := by
  have hpos : 0 < (o.map (fun a => (a - mean o) ^ 2)).sum :=
    lt_of_le_of_ne (sqDev_sum_nonneg o) (Ne.symm hv)
  unfold pearson
  rw [if_neg (by push_neg; exact ⟨hv, hv⟩)]
  have hz : List.zipWith (fun a b => (a - mean o) * (b - mean o)) o o
      = o.map (fun a => (a - mean o) ^ 2) := by
    rw [List.zipWith_same]
    apply List.map_congr_left
    intro a _
    ring
  rw [hz, ← Real.sqrt_mul_self hpos.le]
  congr 1
  field_simp

theorem zipWith_self_sum_zero (f : ℝ → ℝ → ℝ) (hf : ∀ a, f a a = 0)
    (o : List ℝ) : (List.zipWith f o o).sum = 0 := by
  rw [List.zipWith_same]
  apply List.sum_eq_zero
  intro x hx
  obtain ⟨a, _, rfl⟩ := List.mem_map.mp hx
  exact hf a

end Metrics

/-! ## GLUE (`calibration/algorithms/glue.py`)

GLUE compares and transforms objective values with `np.exp`, so this layer
is embedded over `ℝ`; `none` is again NaN.  The batch of sampled parameter
vectors (drawn by the Parameter Sampler) and `np.percentile`/`np.median`
(numpy internals) enter as oracle inputs. -/

namespace GLUE

/-- A possibly-NaN real: `none` is NaN. -/
abbrev OVal : Type := Option ℝ

/-- IEEE `>=` over possibly-NaN reals. -/
noncomputable def ovalGe (a b : OVal) : Bool :=
  match a, b with
  | some x, some y => decide (y ≤ x)
  | _, _ => false

/-- IEEE `<=` over possibly-NaN reals. -/
noncomputable def ovalLe (a b : OVal) : Bool :=
  match a, b with
  | some x, some y => decide (x ≤ y)
  | _, _ => false

/-- IEEE `<` over possibly-NaN reals. -/
noncomputable def ovalLt (a b : OVal) : Bool :=
  match a, b with
  | some x, some y => decide (x < y)
  | _, _ => false

/-- IEEE `>` over possibly-NaN reals. -/
noncomputable def ovalGt (a b : OVal) : Bool :=
  match a, b with
  | some x, some y => decide (y < x)
  | _, _ => false

/-- NaN-propagating binary arithmetic. -/
def ovalMap2 (f : ℝ → ℝ → ℝ) : OVal → OVal → OVal
  | some x, some y => some (f x y)
  | _, _ => none

/-- `np.sum`: NaN-propagating sum. -/
def ovalSum (l : List OVal) : OVal :=
  l.foldr (fun v acc => ovalMap2 (· + ·) v acc) (some 0)

/-- The elementwise comparison of `_identify_behavioral`:
`value >= threshold` when maximizing, `value <= threshold` otherwise, with
NaN → false. -/
noncomputable def behavioralTest (maximize : Bool) (threshold : ℝ)
    (v : OVal) : Bool :=
  if maximize then ovalGe v (some threshold) else ovalLe v (some threshold)

/-- `_identify_behavioral` (glue.py:181-186): the vectorized comparison. -/
noncomputable def behavioralMask (maximize : Bool) (threshold : ℝ)
    (vals : List OVal) : List Bool :=
  vals.map (behavioralTest maximize threshold)

/-- The three likelihood policies of `run` (glue.py:96-100). -/
inductive LikMethod
  | threshold
  | linear
  | exponential

/-- `_calculate_likelihoods` (glue.py:188-220): per-policy raw weights, then
normalization by the total iff the total compares greater than zero. -/
noncomputable def calcWeights (method : LikMethod) (maximize : Bool)
    (threshold : ℝ) (vals : List OVal) (mask : List Bool) : List OVal :=
  let weights :=
    match method with
    | .threshold => mask.map (fun b => if b then some (1 : ℝ) else some 0)
    | .linear =>
        let values := vals.map (fun v =>
          if maximize then ovalMap2 (· - ·) v (some threshold)
          else ovalMap2 (· - ·) (some threshold) v)
        values.map (fun v => if ovalLt v (some 0) then some 0 else v)
    | .exponential =>
        let diff := vals.map (fun v =>
          if maximize then ovalMap2 (· - ·) v (some threshold)
          else ovalMap2 (· - ·) (some threshold) v)
        List.zipWith (fun b wv => if b then wv else some 0) mask
          (diff.map (fun v => v.map Real.exp))
  let total := ovalSum weights
  if ovalGt total (some 0) = true then
    weights.map (fun w => ovalMap2 (· / ·) w total)
  else weights

/-- The evaluation loop of `run` (glue.py:113-121): evaluate every sampled
vector in order, aborting at the first raised exception. -/
def evalAllR (objective : List ℝ → Except String OVal) :
    List (List ℝ) → Except String (List OVal)
  | [] => .ok []
  | p :: ps =>
      match objective p with
      | .error e => .error e
      | .ok v =>
          match evalAllR objective ps with
          | .error e => .error e
          | .ok vs => .ok (v :: vs)

/-- `parameter_sets[behavioral_mask]`: the behavioral rows. -/
def selectRows (mask : List Bool) (rows : List (List ℝ)) : List (List ℝ) :=
  (List.zip mask rows).filterMap (fun p => if p.1 then some p.2 else none)

/-- The value of the `bounds_95`/`bounds_90` entries: the empty-behavioral
dictionary `{'lower': None, 'upper': None}` or the three percentile rows. -/
inductive UBounds where
  | empty
  | vals (lower upper median : List ℝ)

/-- `_calculate_uncertainty_bounds` (glue.py:222-247); `pct p rows` is the
external `np.percentile(rows, p, axis=0)` (and `pct 50` stands for
`np.median`). -/
noncomputable def uncertaintyBounds (p : ℝ) (samples : List (List ℝ)) (mask : List Bool)
    (pct : ℝ → List (List ℝ) → List ℝ) : UBounds :=
  let bp := selectRows mask samples
  if bp.length = 0 then .empty
  else .vals (pct ((100 - p) / 2) bp) (pct (100 - (100 - p) / 2) bp)
    (pct 50 bp)

/-- `np.argmax(self.objective_values)` (glue.py:154) with numpy NaN
preference. -/
noncomputable def argmaxR (l : List OVal) : ℕ :=
  (l.enum.foldl (fun acc p =>
    if (ovalGt p.2 acc.2 || (p.2.isNone && !acc.2.isNone)) then p else acc)
    (0, l.getD 0 none)).1

/-- `np.max(self.objective_values)` (glue.py:155): NaN-propagating fold. -/
def foldMaxR : List OVal → OVal
  | [] => none
  | v :: rest => rest.foldl (fun a b => ovalMap2 max a b) v

/-- The values stored in a GLUE result dictionary. -/
inductive GVal where
  | mat (m : List (List ℝ))
  | ovals (v : List OVal)
  | bmask (m : List Bool)
  | nat (n : ℕ)
  | num (x : ℝ)
  | oval (v : OVal)
  | params (p : List ℝ)
  | ub (u : UBounds)
  | bool (b : Bool)
  | str (s : String)
  | dur

/-- Dictionary lookup on a GLUE result association list. -/
def lookup (res : List (String × GVal)) (k : String) : Option GVal :=
  (res.find? (fun p => p.1 == k)).map (·.2)

/-- `GLUE.run` (glue.py:87-167): evaluate the sampled batch, classify,
weight, and assemble the success dictionary (glue.py:144-158), or on a
raised exception only `{'success': False, 'error': …}` (glue.py:162-167).
The sampled batch `samples` is the output of the Parameter Sampler. -/
noncomputable def run (bounds : List (ℝ × ℝ))
    (objective : List ℝ → Except String OVal) (threshold : ℝ)
    (maximize : Bool) (samples : List (List ℝ)) (method : LikMethod)
    (pct : ℝ → List (List ℝ) → List ℝ) : List (String × GVal) :=
  match evalAllR objective samples with
  | .error e => [("success", .bool false), ("error", .str e)]
  | .ok vals =>
      let mask := behavioralMask maximize threshold vals
      [("parameter_sets", .mat samples),
       ("objective_values", .ovals vals),
       ("behavioral_mask", .bmask mask),
       ("likelihood_weights",
         .ovals (calcWeights method maximize threshold vals mask)),
       ("n_behavioral", .nat (mask.count true)),
       ("behavioral_rate", .num (100 * (mask.count true) / samples.length)),
       ("threshold", .num threshold),
       ("bounds_95", .ub (uncertaintyBounds 95 samples mask pct)),
       ("bounds_90", .ub (uncertaintyBounds 90 samples mask pct)),
       ("best_params", .params (samples.getD (argmaxR vals) [])),
       ("best_value", .oval (foldMaxR vals)),
       ("duration", .dur),
       ("success", .bool true)]

theorem ovalSum_somes : ∀ (l : List OVal),
    (∀ x ∈ l, ∃ q, x = some q ∧ 0 ≤ q) →
    ∃ S, ovalSum l = some S ∧ 0 ≤ S ∧
      ∀ x q, x ∈ l → x = some q → q ≤ S := by
  intro l
  induction l with
  | nil => intro _; exact ⟨0, rfl, le_refl 0, fun x q hx => by simp at hx⟩
  | cons v rest ih =>
    intro hl
    obtain ⟨q, hq, hq0⟩ := hl v (List.mem_cons_self v rest)
    obtain ⟨S, hS, hS0, hSb⟩ := ih (fun x hx => hl x (List.mem_cons_of_mem v hx))
    refine ⟨q + S, ?_, by linarith, ?_⟩
    · show ovalMap2 (· + ·) v (ovalSum rest) = some (q + S)
      rw [hq, hS]
      rfl
    · intro x p hx hp
      rcases List.mem_cons.mp hx with h | h
      · rw [h, hq] at hp
        simp only [Option.some.injEq] at hp
        rw [← hp]
        linarith
      · have := hSb x p h hp
        linarith

theorem ovalSum_map_div : ∀ (l : List OVal) (T S : ℝ),
    (∀ x ∈ l, ∃ q, x = some q) → ovalSum l = some T →
    ovalSum (l.map (fun w => ovalMap2 (· / ·) w (some S))) = some (T / S) := by
  intro l
  induction l with
  | nil =>
    intro T S _ hT
    simp only [ovalSum, List.foldr_nil, Option.some.injEq] at hT
    simp [ovalSum, ← hT, zero_div]
  | cons v rest ih =>
    intro T S hl hT
    obtain ⟨q, hq⟩ := hl v (List.mem_cons_self v rest)
    have hrest : ∀ x ∈ rest, ∃ p, x = some p :=
      fun x hx => hl x (List.mem_cons_of_mem v hx)
    have hsum : ovalSum (v :: rest) = ovalMap2 (· + ·) v (ovalSum rest) := rfl
    rw [hsum, hq] at hT
    cases hrs : ovalSum rest with
    | none => rw [hrs] at hT; simp [ovalMap2] at hT
    | some T2 =>
      rw [hrs] at hT
      simp only [ovalMap2, Option.some.injEq] at hT
      have hihr := ih T2 S hrest hrs
      show ovalMap2 (· + ·) (ovalMap2 (· / ·) v (some S))
        (ovalSum (rest.map (fun w => ovalMap2 (· / ·) w (some S)))) = _
      rw [hq, hihr]
      simp only [ovalMap2, Option.some.injEq]
      rw [← hT]
      ring

theorem ovalSum_all_zero : ∀ (l : List OVal), (∀ x ∈ l, x = some 0) →
    ovalSum l = some 0 := by
  intro l
  induction l with
  | nil => intro _; rfl
  | cons v rest ih =>
    intro hl
    show ovalMap2 (· + ·) v (ovalSum rest) = some 0
    rw [hl v (List.mem_cons_self v rest),
      ih (fun x hx => hl x (List.mem_cons_of_mem v hx))]
    simp [ovalMap2]

/-- The normalization step shared by all three likelihood policies
(glue.py:215-218): from nonnegative raw weights, the final weights are
nonnegative; they sum to 1 whenever some raw weight is positive; and they
are returned unnormalized (all zero) when all raw weights are zero. -/
theorem normalizeStep (weights0 : List OVal)
    (hw : ∀ x ∈ weights0, ∃ q, x = some q ∧ 0 ≤ q) :
    (∀ x ∈ (if ovalGt (ovalSum weights0) (some 0) = true
        then weights0.map (fun w => ovalMap2 (· / ·) w (ovalSum weights0))
        else weights0), ∃ q, x = some q ∧ 0 ≤ q) ∧
    ((∃ x ∈ weights0, ∃ q, x = some q ∧ 0 < q) →
      ovalSum (if ovalGt (ovalSum weights0) (some 0) = true
        then weights0.map (fun w => ovalMap2 (· / ·) w (ovalSum weights0))
        else weights0) = some 1) ∧
    ((∀ x ∈ weights0, x = some 0) →
      (if ovalGt (ovalSum weights0) (some 0) = true
        then weights0.map (fun w => ovalMap2 (· / ·) w (ovalSum weights0))
        else weights0) = weights0) := by
  obtain ⟨S, hS, hS0, hSb⟩ := ovalSum_somes weights0 hw
  refine ⟨?_, ?_, ?_⟩
  · intro x hx
    by_cases hc : ovalGt (ovalSum weights0) (some 0) = true
    · rw [if_pos hc] at hx
      rw [hS] at hc
      simp only [ovalGt, decide_eq_true_eq] at hc
      obtain ⟨w, hwmem, rfl⟩ := List.mem_map.mp hx
      obtain ⟨q, hq, hq0⟩ := hw w hwmem
      rw [hq, hS]
      exact ⟨q / S, rfl, div_nonneg hq0 hS0⟩
    · rw [if_neg hc] at hx
      exact hw x hx
  · rintro ⟨x, hxmem, q, hq, hqpos⟩
    have hSpos : 0 < S := lt_of_lt_of_le hqpos (hSb x q hxmem hq)
    have hc : ovalGt (ovalSum weights0) (some 0) = true := by
      rw [hS]
      simp only [ovalGt, decide_eq_true_eq]
      exact hSpos
    rw [if_pos hc, hS]
    rw [ovalSum_map_div weights0 S S
      (fun y hy => ⟨(hw y hy).choose, (hw y hy).choose_spec.1⟩) hS]
    rw [div_self (ne_of_gt hSpos)]
  · intro hz
    have h0 : ovalSum weights0 = some 0 := ovalSum_all_zero weights0 hz
    have hc : ovalGt (ovalSum weights0) (some 0) = false := by
      rw [h0]
      simp [ovalGt]
    rw [hc]
    simp

theorem zipWith_map_same {α β γ δ : Type} (f : β → γ → δ) (g : α → β)
    (h : α → γ) : ∀ (l : List α),
    List.zipWith f (l.map g) (l.map h) = l.map (fun x => f (g x) (h x)) := by
  intro l
  induction l with
  | nil => rfl
  | cons x xs ih => simp [ih]

theorem threshold_policy_weights (maximize : Bool) (threshold : ℝ)
    (vals : List OVal) (mask : List Bool) :
    (∀ x ∈ calcWeights .threshold maximize threshold vals mask,
      ∃ q, x = some q ∧ 0 ≤ q) ∧
    (mask.count true ≠ 0 →
      ovalSum (calcWeights .threshold maximize threshold vals mask)
        = some 1) ∧
    (mask.count true = 0 →
      ∀ x ∈ calcWeights .threshold maximize threshold vals mask,
        x = some 0) := by
  have hw : ∀ x ∈ mask.map (fun b => if b then some (1 : ℝ) else some 0),
      ∃ q, x = some q ∧ 0 ≤ q := by
    intro x hx
    obtain ⟨b, _, rfl⟩ := List.mem_map.mp hx
    cases b
    · exact ⟨0, rfl, le_refl 0⟩
    · exact ⟨1, rfl, by norm_num⟩
  have hns := normalizeStep (mask.map (fun b => if b then some (1 : ℝ)
    else some 0)) hw
  have hne : calcWeights .threshold maximize threshold vals mask
      = (if ovalGt (ovalSum (mask.map (fun b => if b then some (1 : ℝ)
          else some 0))) (some 0) = true
        then (mask.map (fun b => if b then some (1 : ℝ)
          else some 0)).map (fun w => ovalMap2 (· / ·) w
            (ovalSum (mask.map (fun b => if b then some (1 : ℝ)
              else some 0))))
        else mask.map (fun b => if b then some (1 : ℝ) else some 0)) := rfl
  refine ⟨?_, ?_, ?_⟩
  · rw [hne]
    exact hns.1
  · intro hcnt
    rw [hne]
    apply hns.2.1
    have hmem : true ∈ mask := by
      rcases List.count_pos_iff.mp (Nat.pos_of_ne_zero hcnt) with h
      exact h
    exact ⟨some 1, List.mem_map.mpr ⟨true, hmem, rfl⟩, 1, rfl, one_pos⟩
  · intro hcnt
    have hzero : ∀ x ∈ mask.map (fun b => if b then some (1 : ℝ)
        else some 0), x = some 0 := by
      intro x hx
      obtain ⟨b, hb, rfl⟩ := List.mem_map.mp hx
      have : b = false := by
        cases b
        · rfl
        · exact absurd hb (List.count_eq_zero.mp hcnt)
      rw [this]
      rfl
    rw [hne, hns.2.2 hzero]
    exact hzero

theorem behavioralTest_none (maximize : Bool) (threshold : ℝ) :
    behavioralTest maximize threshold none = false := by
  cases maximize <;> rfl

theorem exponential_policy_weights (maximize : Bool) (threshold : ℝ)
    (vals : List OVal) :
    (∀ x ∈ calcWeights .exponential maximize threshold vals
        (behavioralMask maximize threshold vals), ∃ q, x = some q ∧ 0 ≤ q) ∧
    ((behavioralMask maximize threshold vals).count true ≠ 0 →
      ovalSum (calcWeights .exponential maximize threshold vals
        (behavioralMask maximize threshold vals)) = some 1) ∧
    ((behavioralMask maximize threshold vals).count true = 0 →
      ∀ x ∈ calcWeights .exponential maximize threshold vals
        (behavioralMask maximize threshold vals), x = some 0) := by
  have hzip : List.zipWith (fun b wv => if b then wv else some 0)
      (behavioralMask maximize threshold vals)
      ((vals.map (fun v => if maximize then ovalMap2 (· - ·) v
        (some threshold) else ovalMap2 (· - ·) (some threshold) v)).map
        (fun v => v.map Real.exp))
      = vals.map (fun v => if behavioralTest maximize threshold v then
          ((if maximize then ovalMap2 (· - ·) v (some threshold)
            else ovalMap2 (· - ·) (some threshold) v).map Real.exp)
          else some 0) := by
    rw [List.map_map]
    exact zipWith_map_same _ _ _ vals
  have hpt : ∀ v : OVal, ∃ q,
      (if behavioralTest maximize threshold v then
        ((if maximize then ovalMap2 (· - ·) v (some threshold)
          else ovalMap2 (· - ·) (some threshold) v).map Real.exp)
        else some 0) = some q ∧ 0 ≤ q ∧
      (behavioralTest maximize threshold v = true → 0 < q) := by
    intro v
    cases hbt : behavioralTest maximize threshold v with
    | false =>
      refine ⟨0, ?_, le_refl 0, by simp⟩
      rw [if_neg (by simp [hbt])]
    | true =>
      cases v with
      | none => exact absurd hbt (by rw [behavioralTest_none]; simp)
      | some x =>
        cases maximize with
        | true =>
          refine ⟨Real.exp (x - threshold), ?_, (Real.exp_pos _).le,
            fun _ => Real.exp_pos _⟩
          simp [hbt, ovalMap2]
        | false =>
          refine ⟨Real.exp (threshold - x), ?_, (Real.exp_pos _).le,
            fun _ => Real.exp_pos _⟩
          simp [hbt, ovalMap2]
  have hw : ∀ x ∈ vals.map (fun v => if behavioralTest maximize threshold v
      then ((if maximize then ovalMap2 (· - ·) v (some threshold)
        else ovalMap2 (· - ·) (some threshold) v).map Real.exp)
      else some 0), ∃ q, x = some q ∧ 0 ≤ q := by
    intro x hx
    obtain ⟨v, _, rfl⟩ := List.mem_map.mp hx
    obtain ⟨q, hq, hq0, _⟩ := hpt v
    exact ⟨q, hq, hq0⟩
  have hns := normalizeStep _ hw
  have hne : calcWeights .exponential maximize threshold vals
      (behavioralMask maximize threshold vals)
      = (if ovalGt (ovalSum (vals.map (fun v =>
          if behavioralTest maximize threshold v then
            ((if maximize then ovalMap2 (· - ·) v (some threshold)
              else ovalMap2 (· - ·) (some threshold) v).map Real.exp)
          else some 0))) (some 0) = true
        then (vals.map (fun v => if behavioralTest maximize threshold v then
            ((if maximize then ovalMap2 (· - ·) v (some threshold)
              else ovalMap2 (· - ·) (some threshold) v).map Real.exp)
            else some 0)).map (fun w => ovalMap2 (· / ·) w
              (ovalSum (vals.map (fun v =>
                if behavioralTest maximize threshold v then
                  ((if maximize then ovalMap2 (· - ·) v (some threshold)
                    else ovalMap2 (· - ·) (some threshold) v).map Real.exp)
                else some 0))))
        else vals.map (fun v => if behavioralTest maximize threshold v then
            ((if maximize then ovalMap2 (· - ·) v (some threshold)
              else ovalMap2 (· - ·) (some threshold) v).map Real.exp)
            else some 0)) := by
    show (if ovalGt (ovalSum (List.zipWith _ _ _)) (some 0) = true
      then _ else _) = _
    rw [hzip]
  refine ⟨?_, ?_, ?_⟩
  · rw [hne]
    exact hns.1
  · intro hcnt
    rw [hne]
    apply hns.2.1
    have hmem : true ∈ behavioralMask maximize threshold vals :=
      List.count_pos_iff.mp (Nat.pos_of_ne_zero hcnt)
    obtain ⟨v, hv, hbt⟩ := List.mem_map.mp hmem
    obtain ⟨q, hq, _, hqpos⟩ := hpt v
    exact ⟨_, List.mem_map.mpr ⟨v, hv, rfl⟩, q, hq, hqpos hbt⟩
  · intro hcnt
    have hzero : ∀ x ∈ vals.map (fun v =>
        if behavioralTest maximize threshold v then
          ((if maximize then ovalMap2 (· - ·) v (some threshold)
            else ovalMap2 (· - ·) (some threshold) v).map Real.exp)
        else some 0), x = some 0 := by
      intro x hx
      obtain ⟨v, hv, rfl⟩ := List.mem_map.mp hx
      have hbt : behavioralTest maximize threshold v = false := by
        cases h : behavioralTest maximize threshold v
        · rfl
        · exact absurd (List.mem_map.mpr ⟨v, hv, h⟩)
            (List.count_eq_zero.mp hcnt)
      rw [if_neg (by simp [hbt])]
    rw [hne, hns.2.2 hzero]
    exact hzero

theorem linear_policy_weights (maximize : Bool) (threshold : ℝ)
    (vals : List OVal) (hfin : ∀ v ∈ vals, v ≠ none) :
    (∀ x ∈ calcWeights .linear maximize threshold vals
        (behavioralMask maximize threshold vals), ∃ q, x = some q ∧ 0 ≤ q) ∧
    ((∃ x ∈ vals, ∃ q, x = some q ∧
        (if maximize then threshold < q else q < threshold)) →
      ovalSum (calcWeights .linear maximize threshold vals
        (behavioralMask maximize threshold vals)) = some 1) ∧
    ((behavioralMask maximize threshold vals).count true = 0 →
      ∀ x ∈ calcWeights .linear maximize threshold vals
        (behavioralMask maximize threshold vals), x = some 0) := by
  have hform : (vals.map (fun v => if maximize then ovalMap2 (· - ·) v
        (some threshold) else ovalMap2 (· - ·) (some threshold) v)).map
        (fun v => if ovalLt v (some 0) = true then some 0 else v)
      = vals.map (fun v => if ovalLt (if maximize then
          ovalMap2 (· - ·) v (some threshold)
          else ovalMap2 (· - ·) (some threshold) v) (some 0) = true
        then some 0
        else (if maximize then ovalMap2 (· - ·) v (some threshold)
          else ovalMap2 (· - ·) (some threshold) v)) := by
    rw [List.map_map]
    rfl
  have hpt : ∀ v ∈ vals, ∃ q,
      (if ovalLt (if maximize then ovalMap2 (· - ·) v (some threshold)
          else ovalMap2 (· - ·) (some threshold) v) (some 0) = true
        then some 0
        else (if maximize then ovalMap2 (· - ·) v (some threshold)
          else ovalMap2 (· - ·) (some threshold) v)) = some q ∧ 0 ≤ q := by
    intro v hv
    cases v with
    | none => exact absurd rfl (hfin none hv)
    | some x =>
      cases maximize with
      | true =>
        by_cases hneg : x - threshold < 0
        · exact ⟨0, by rw [if_pos (by simp [ovalMap2, ovalLt, hneg])],
            le_refl 0⟩
        · refine ⟨x - threshold, ?_, by linarith⟩
          rw [if_neg (by simp [ovalMap2, ovalLt, hneg])]
          rfl
      | false =>
        by_cases hneg : threshold - x < 0
        · exact ⟨0, by rw [if_pos (by simp [ovalMap2, ovalLt, hneg])],
            le_refl 0⟩
        · refine ⟨threshold - x, ?_, by linarith⟩
          rw [if_neg (by simp [ovalMap2, ovalLt, hneg])]
          rfl
  have hw : ∀ x ∈ vals.map (fun v =>
      if ovalLt (if maximize then ovalMap2 (· - ·) v (some threshold)
          else ovalMap2 (· - ·) (some threshold) v) (some 0) = true
      then some 0
      else (if maximize then ovalMap2 (· - ·) v (some threshold)
        else ovalMap2 (· - ·) (some threshold) v)),
      ∃ q, x = some q ∧ 0 ≤ q := by
    intro x hx
    obtain ⟨v, hv, rfl⟩ := List.mem_map.mp hx
    exact hpt v hv
  have hns := normalizeStep _ hw
  have hne : calcWeights .linear maximize threshold vals
      (behavioralMask maximize threshold vals)
      = (if ovalGt (ovalSum (vals.map (fun v =>
          if ovalLt (if maximize then ovalMap2 (· - ·) v (some threshold)
              else ovalMap2 (· - ·) (some threshold) v) (some 0) = true
          then some 0
          else (if maximize then ovalMap2 (· - ·) v (some threshold)
            else ovalMap2 (· - ·) (some threshold) v)))) (some 0) = true
        then (vals.map (fun v =>
          if ovalLt (if maximize then ovalMap2 (· - ·) v (some threshold)
              else ovalMap2 (· - ·) (some threshold) v) (some 0) = true
          then some 0
          else (if maximize then ovalMap2 (· - ·) v (some threshold)
            else ovalMap2 (· - ·) (some threshold) v))).map
            (fun w => ovalMap2 (· / ·) w (ovalSum (vals.map (fun v =>
              if ovalLt (if maximize then ovalMap2 (· - ·) v
                  (some threshold)
                  else ovalMap2 (· - ·) (some threshold) v) (some 0) = true
              then some 0
              else (if maximize then ovalMap2 (· - ·) v (some threshold)
                else ovalMap2 (· - ·) (some threshold) v)))))
        else vals.map (fun v =>
          if ovalLt (if maximize then ovalMap2 (· - ·) v (some threshold)
              else ovalMap2 (· - ·) (some threshold) v) (some 0) = true
          then some 0
          else (if maximize then ovalMap2 (· - ·) v (some threshold)
            else ovalMap2 (· - ·) (some threshold) v))) := by
    show (if ovalGt (ovalSum ((vals.map _).map _)) (some 0) = true
      then _ else _) = _
    rw [hform]
  refine ⟨?_, ?_, ?_⟩
  · rw [hne]
    exact hns.1
  · rintro ⟨x, hxmem, q, hq, hqbeyond⟩
    rw [hne]
    apply hns.2.1
    cases maximize with
    | true =>
      rw [if_pos rfl] at hqbeyond
      refine ⟨_, List.mem_map.mpr ⟨x, hxmem, rfl⟩, q - threshold, ?_,
        by linarith⟩
      rw [hq]
      rw [if_neg (by simp [ovalMap2, ovalLt]; linarith)]
      rfl
    | false =>
      rw [if_neg (by simp)] at hqbeyond
      refine ⟨_, List.mem_map.mpr ⟨x, hxmem, rfl⟩, threshold - q, ?_,
        by linarith⟩
      rw [hq]
      rw [if_neg (by simp [ovalMap2, ovalLt]; linarith)]
      rfl
  · intro hcnt
    have hzero : ∀ x ∈ vals.map (fun v =>
        if ovalLt (if maximize then ovalMap2 (· - ·) v (some threshold)
            else ovalMap2 (· - ·) (some threshold) v) (some 0) = true
        then some 0
        else (if maximize then ovalMap2 (· - ·) v (some threshold)
          else ovalMap2 (· - ·) (some threshold) v)), x = some 0 := by
      intro x hx
      obtain ⟨v, hv, rfl⟩ := List.mem_map.mp hx
      have hbt : behavioralTest maximize threshold v = false := by
        cases h : behavioralTest maximize threshold v
        · rfl
        · exact absurd (List.mem_map.mpr ⟨v, hv, h⟩)
            (List.count_eq_zero.mp hcnt)
      cases v with
      | none => exact absurd rfl (hfin none hv)
      | some y =>
        cases maximize with
        | true =>
          have hy : y < threshold := by
            by_contra hcon
            have : behavioralTest true threshold (some y) = true := by
              simp only [behavioralTest, if_pos, ovalGe,
                decide_eq_true_eq]
              linarith
            rw [this] at hbt
            simp at hbt
          rw [if_pos (by simp [ovalMap2, ovalLt]; linarith)]
        | false =>
          have hy : threshold < y := by
            by_contra hcon
            have : behavioralTest false threshold (some y) = true := by
              simp only [behavioralTest, if_neg, ovalLe,
                decide_eq_true_eq]
              simp only [Bool.false_eq_true, if_false, ovalLe,
                decide_eq_true_eq]
              linarith
            rw [this] at hbt
            simp at hbt
          rw [if_pos (by simp [ovalMap2, ovalLt]; linarith)]
    rw [hne, hns.2.2 hzero]
    exact hzero

theorem run_fields (bounds : List (ℝ × ℝ))
    (objective : List ℝ → Except String OVal) (threshold : ℝ)
    (maximize : Bool) (samples : List (List ℝ)) (method : LikMethod)
    (pct : ℝ → List (List ℝ) → List ℝ) (vals : List OVal)
    (hev : evalAllR objective samples = .ok vals) :
    lookup (run bounds objective threshold maximize samples method pct)
        "likelihood_weights" = some (.ovals (calcWeights method maximize
          threshold vals (behavioralMask maximize threshold vals))) ∧
    lookup (run bounds objective threshold maximize samples method pct)
        "n_behavioral"
      = some (.nat ((behavioralMask maximize threshold vals).count true)) ∧
    lookup (run bounds objective threshold maximize samples method pct)
        "success" = some (.bool true) := by
  have hres : run bounds objective threshold maximize samples method pct
      = [("parameter_sets", .mat samples),
         ("objective_values", .ovals vals),
         ("behavioral_mask", .bmask (behavioralMask maximize threshold vals)),
         ("likelihood_weights",
           .ovals (calcWeights method maximize threshold vals
             (behavioralMask maximize threshold vals))),
         ("n_behavioral",
           .nat ((behavioralMask maximize threshold vals).count true)),
         ("behavioral_rate", .num (100 *
           ((behavioralMask maximize threshold vals).count true)
             / samples.length)),
         ("threshold", .num threshold),
         ("bounds_95", .ub (uncertaintyBounds 95 samples
           (behavioralMask maximize threshold vals) pct)),
         ("bounds_90", .ub (uncertaintyBounds 90 samples
           (behavioralMask maximize threshold vals) pct)),
         ("best_params", .params (samples.getD (argmaxR vals) [])),
         ("best_value", .oval (foldMaxR vals)),
         ("duration", .dur),
         ("success", .bool true)] := by
    simp only [run]
    rw [hev]
  rw [hres]
  exact ⟨rfl, rfl, rfl⟩

end GLUE

/-- C4 counterexample: a GLUE run with the `linear` likelihood policy whose
ten samples all score exactly the behavioral threshold has a non-empty
behavioral set (all ten samples are behavioral) yet all-zero likelihood
weights: a behavioral sample exactly at the threshold gets raw weight
`value − threshold = 0`, so the total is 0 and normalization is skipped —
the weights do not sum to 1 although at least one sample is behavioral. -/
theorem glue_linear_threshold_counterexample :
    GLUE.lookup (GLUE.run [((0 : ℝ), 1)] (fun _ => Except.ok (some 0)) 0
        true [[(0 : ℝ)], [0], [0], [0], [0], [0], [0], [0], [0], [0]]
        .linear (fun _ _ => [])) "n_behavioral" = some (.nat 10) ∧
    GLUE.lookup (GLUE.run [((0 : ℝ), 1)] (fun _ => Except.ok (some 0)) 0
        true [[(0 : ℝ)], [0], [0], [0], [0], [0], [0], [0], [0], [0]]
        .linear (fun _ _ => [])) "likelihood_weights"
      = some (.ovals [some 0, some 0, some 0, some 0, some 0, some 0,
          some 0, some 0, some 0, some 0]) ∧
    GLUE.ovalSum [some (0 : ℝ), some 0, some 0, some 0, some 0, some 0,
      some 0, some 0, some 0, some 0] = some 0 ∧
    (some (0 : ℝ) ≠ (some 1 : Option ℝ)) ∧ (10 : ℕ) ≠ 0 := by
  have hev : GLUE.evalAllR (fun _ => Except.ok (some (0 : ℝ)))
      [[(0 : ℝ)], [0], [0], [0], [0], [0], [0], [0], [0], [0]]
      = .ok [some 0, some 0, some 0, some 0, some 0, some 0, some 0,
          some 0, some 0, some 0] := by
    simp [GLUE.evalAllR]
  have hF := GLUE.run_fields [((0 : ℝ), 1)] (fun _ => Except.ok (some 0)) 0
    true [[(0 : ℝ)], [0], [0], [0], [0], [0], [0], [0], [0], [0]] .linear
    (fun _ _ => [])
    [some 0, some 0, some 0, some 0, some 0, some 0, some 0, some 0,
      some 0, some 0] hev
  have hmask : GLUE.behavioralMask true 0
      [some (0 : ℝ), some 0, some 0, some 0, some 0, some 0, some 0,
        some 0, some 0, some 0]
      = [true, true, true, true, true, true, true, true, true, true] := by
    norm_num [GLUE.behavioralMask, GLUE.behavioralTest, GLUE.ovalGe]
  have hweights : GLUE.calcWeights .linear true 0
      [some (0 : ℝ), some 0, some 0, some 0, some 0, some 0, some 0,
        some 0, some 0, some 0]
      [true, true, true, true, true, true, true, true, true, true]
      = [some 0, some 0, some 0, some 0, some 0, some 0, some 0, some 0,
          some 0, some 0] := by
    norm_num [GLUE.calcWeights, GLUE.ovalMap2, GLUE.ovalLt, GLUE.ovalGt,
      GLUE.ovalSum]
  refine ⟨?_, ?_, ?_, by simp, by omega⟩
  · rw [hF.2.1, hmask]
    rfl
  · rw [hF.1, hmask, hweights]
  · norm_num [GLUE.ovalSum, GLUE.ovalMap2]

/-- C4 (amended): in GLUE, after any run, under the `threshold` and
`exponential` likelihood policies the likelihood weights are all
non-negative, sum to 1 whenever at least one sample is behavioral, and are
all zero when no sample is behavioral; under the `linear` policy the same
holds provided no objective value is NaN and at least one behavioral sample
lies strictly beyond the threshold — a behavioral sample exactly at the
threshold receives zero raw weight, so a run whose behavioral samples all
sit exactly on the threshold keeps all weights zero despite a non-empty
behavioral set. -/
theorem glue_likelihood_weights_invariant :
    (∀ (maximize : Bool) (threshold : ℝ) (vals : List GLUE.OVal),
      (∀ x ∈ GLUE.calcWeights .threshold maximize threshold vals
          (GLUE.behavioralMask maximize threshold vals),
        ∃ q, x = some q ∧ 0 ≤ q) ∧
      ((GLUE.behavioralMask maximize threshold vals).count true ≠ 0 →
        GLUE.ovalSum (GLUE.calcWeights .threshold maximize threshold vals
          (GLUE.behavioralMask maximize threshold vals)) = some 1) ∧
      ((GLUE.behavioralMask maximize threshold vals).count true = 0 →
        ∀ x ∈ GLUE.calcWeights .threshold maximize threshold vals
          (GLUE.behavioralMask maximize threshold vals), x = some 0)) ∧
    (∀ (maximize : Bool) (threshold : ℝ) (vals : List GLUE.OVal),
      (∀ x ∈ GLUE.calcWeights .exponential maximize threshold vals
          (GLUE.behavioralMask maximize threshold vals),
        ∃ q, x = some q ∧ 0 ≤ q) ∧
      ((GLUE.behavioralMask maximize threshold vals).count true ≠ 0 →
        GLUE.ovalSum (GLUE.calcWeights .exponential maximize threshold vals
          (GLUE.behavioralMask maximize threshold vals)) = some 1) ∧
      ((GLUE.behavioralMask maximize threshold vals).count true = 0 →
        ∀ x ∈ GLUE.calcWeights .exponential maximize threshold vals
          (GLUE.behavioralMask maximize threshold vals), x = some 0)) ∧
    (∀ (maximize : Bool) (threshold : ℝ) (vals : List GLUE.OVal),
      (∀ v ∈ vals, v ≠ none) →
      (∀ x ∈ GLUE.calcWeights .linear maximize threshold vals
          (GLUE.behavioralMask maximize threshold vals),
        ∃ q, x = some q ∧ 0 ≤ q) ∧
      ((∃ x ∈ vals, ∃ q, x = some q ∧
          (if maximize then threshold < q else q < threshold)) →
        GLUE.ovalSum (GLUE.calcWeights .linear maximize threshold vals
          (GLUE.behavioralMask maximize threshold vals)) = some 1) ∧
      ((GLUE.behavioralMask maximize threshold vals).count true = 0 →
        ∀ x ∈ GLUE.calcWeights .linear maximize threshold vals
          (GLUE.behavioralMask maximize threshold vals), x = some 0)) ∧
    (∀ (bounds : List (ℝ × ℝ)) (objective : List ℝ → Except String
        GLUE.OVal) (threshold : ℝ) (maximize : Bool)
        (samples : List (List ℝ)) (method : GLUE.LikMethod)
        (pct : ℝ → List (List ℝ) → List ℝ) (vals : List GLUE.OVal),
      GLUE.evalAllR objective samples = .ok vals →
      GLUE.lookup (GLUE.run bounds objective threshold maximize samples
          method pct) "likelihood_weights"
        = some (.ovals (GLUE.calcWeights method maximize threshold vals
            (GLUE.behavioralMask maximize threshold vals)))) :=
  ⟨fun maximize threshold vals =>
    GLUE.threshold_policy_weights maximize threshold vals
      (GLUE.behavioralMask maximize threshold vals),
   fun maximize threshold vals =>
    GLUE.exponential_policy_weights maximize threshold vals,
   fun maximize threshold vals hfin =>
    GLUE.linear_policy_weights maximize threshold vals hfin,
   fun bounds objective threshold maximize samples method pct vals hev =>
    (GLUE.run_fields bounds objective threshold maximize samples method pct
      vals hev).1⟩

/-- Witness for the amended C4 at one concrete behavioral sample `1` with
threshold `0` (maximize): threshold-, exponential- and linear-policy
weights all sum to 1, and the success-path `likelihood_weights` field of a
one-sample run carries exactly those weights. -/
theorem glue_likelihood_weights_invariant_witness :
    GLUE.ovalSum (GLUE.calcWeights .threshold true 0 [some (1 : ℝ)]
      (GLUE.behavioralMask true 0 [some (1 : ℝ)])) = some 1 ∧
    GLUE.ovalSum (GLUE.calcWeights .exponential true 0 [some (1 : ℝ)]
      (GLUE.behavioralMask true 0 [some (1 : ℝ)])) = some 1 ∧
    GLUE.ovalSum (GLUE.calcWeights .linear true 0 [some (1 : ℝ)]
      (GLUE.behavioralMask true 0 [some (1 : ℝ)])) = some 1 ∧
    GLUE.lookup (GLUE.run [((0 : ℝ), 2)] (fun _ => Except.ok (some 1)) 0
        true [[(1 : ℝ)]] .threshold (fun _ _ => [])) "likelihood_weights"
      = some (.ovals (GLUE.calcWeights .threshold true 0 [some (1 : ℝ)]
          (GLUE.behavioralMask true 0 [some (1 : ℝ)]))) := by
  have h := glue_likelihood_weights_invariant
  have hcnt : (GLUE.behavioralMask true 0 [some (1 : ℝ)]).count true ≠ 0 := by
    norm_num [GLUE.behavioralMask, GLUE.behavioralTest, GLUE.ovalGe,
      List.count_cons]
  refine ⟨(h.1 true 0 [some 1]).2.1 hcnt,
    (h.2.1 true 0 [some 1]).2.1 hcnt,
    (h.2.2.1 true 0 [some 1] ?_).2.1 ?_,
    h.2.2.2 [((0 : ℝ), 2)] (fun _ => Except.ok (some 1)) 0 true [[(1 : ℝ)]]
      .threshold (fun _ _ => []) [some 1] ?_⟩
  · intro v hv
    simp only [List.mem_singleton] at hv
    rw [hv]
    simp
  · exact ⟨some 1, List.mem_singleton.mpr rfl, 1, rfl, by norm_num⟩
  · simp [GLUE.evalAllR]

/-- C6 counterexample: the constant pair of equal sequences `[5,5]` yields
`NSE = NaN`, not `1`: the NSE denominator `Σ(o − mean o)²` is zero, so the
claimed identity fails as stated for this equal observed/simulated pair. -/
theorem equal_series_metric_counterexample :
    Metrics.nse [(5 : ℝ), 5] [(5 : ℝ), 5] = none ∧
    (none : Option ℝ) ≠ some 1 := by
  refine ⟨?_, by simp⟩
  simp [Metrics.nse, Metrics.mean]

/-- C6 (amended): for every pair of equal observed/simulated sequences that
is non-empty, not constant (nonzero squared deviation from the mean) and has
nonzero sum, the metrics return `NSE = KGE = R² = 1` and
`RMSE = MAE = PBIAS = 0`; on degenerate equal sequences the metrics whose
denominators vanish return NaN instead. -/
theorem perfect_metrics_on_equal_series (o : List ℝ) (hne : o ≠ [])
    (hv : (o.map (fun a => (a - Metrics.mean o) ^ 2)).sum ≠ 0)
    (hs : o.sum ≠ 0) :
    Metrics.nse o o = some 1 ∧ Metrics.kge o o (1, 1, 1) = some 1 ∧
    Metrics.r_squared o o = some 1 ∧ Metrics.rmse o o = some 0 ∧
    Metrics.mae o o = some 0 ∧ Metrics.pbias o o = some 0 := by
  have hlen : o.length ≠ 0 := by
    simpa [List.length_eq_zero] using hne
  have hlenR : (0 : ℝ) < o.length := by
    have := Nat.pos_of_ne_zero hlen
    exact_mod_cast this
  have hvpos : 0 < (o.map (fun a => (a - Metrics.mean o) ^ 2)).sum :=
    lt_of_le_of_ne (Metrics.sqDev_sum_nonneg o) (Ne.symm hv)
  have hsq : (List.zipWith (fun a b => (a - b) ^ 2) o o).sum = 0 :=
    Metrics.zipWith_self_sum_zero _ (by intro a; ring) o
  refine ⟨?_, ?_, ?_, ?_, ?_, ?_⟩
  · unfold Metrics.nse
    rw [if_neg hlen, if_neg hv]
    simp [hsq]
  · unfold Metrics.kge
    rw [if_neg hlen]
    have hstd : Metrics.std o ≠ 0 := by
      unfold Metrics.std
      refine ne_of_gt (Real.sqrt_pos.mpr ?_)
      exact div_pos hvpos hlenR
    have hmean : Metrics.mean o ≠ 0 := by
      unfold Metrics.mean
      exact div_ne_zero hs (ne_of_gt hlenR)
    rw [if_neg hstd, if_neg hmean, Metrics.pearson_self o hv]
    simp only [div_self hstd, div_self hmean]
    norm_num
  · unfold Metrics.r_squared
    rw [Metrics.pearson_self o hv]
    norm_num
  · unfold Metrics.rmse
    rw [if_neg hlen]
    simp [hsq]
  · unfold Metrics.mae
    rw [if_neg hlen]
    have habs : (List.zipWith (fun a b => |a - b|) o o).sum = 0 :=
      Metrics.zipWith_self_sum_zero _ (by intro a; simp) o
    simp [habs]
  · unfold Metrics.pbias
    rw [if_neg hlen, if_neg hs]
    have hsub : (List.zipWith (fun a b : ℝ => b - a) o o).sum = 0 :=
      Metrics.zipWith_self_sum_zero _ (by intro a; ring) o
    simp [hsub]

/-- Witness for the amended C6 at the concrete equal pair `[1,2]`. -/
theorem perfect_metrics_on_equal_series_witness :
    Metrics.nse [(1 : ℝ), 2] [(1 : ℝ), 2] = some 1 ∧
    Metrics.kge [(1 : ℝ), 2] [(1 : ℝ), 2] (1, 1, 1) = some 1 ∧
    Metrics.r_squared [(1 : ℝ), 2] [(1 : ℝ), 2] = some 1 ∧
    Metrics.rmse [(1 : ℝ), 2] [(1 : ℝ), 2] = some 0 ∧
    Metrics.mae [(1 : ℝ), 2] [(1 : ℝ), 2] = some 0 ∧
    Metrics.pbias [(1 : ℝ), 2] [(1 : ℝ), 2] = some 0 :=
  perfect_metrics_on_equal_series [(1 : ℝ), 2] (by simp)
    (by simp [Metrics.mean]; norm_num) (by norm_num)

/-! ## Parameter Sampler (`calibration/sampling.py`)

The external generators (`scipy.stats.qmc` and `np.random`) are modelled as
oracle streams of unit draws: `u i j` is the `j`-th component of the `i`-th
row the external generator returns. -/

namespace Sampling

/-- Column-wise scaling `lower + (upper − lower) * x` of one unit row
(sampling.py:54-56 and analogous loops). -/
def scaleRow (bounds : List (ℚ × ℚ)) (row : List ℚ) : List ℚ :=
  List.zipWith (fun b x => b.1 + (b.2 - b.1) * x) bounds row

/-- The `(n, d)` unit-hypercube table produced by the external generator. -/
def unitTable (u : ℕ → ℕ → ℚ) (n d : ℕ) : List (List ℚ) :=
  (List.range n).map (fun i => (List.range d).map (u i))

/-- `latin_hypercube_sampling` (sampling.py:19-59): scale the generator's
`(n, d)` unit table to the bounds. -/
def latin_hypercube_sampling (bounds : List (ℚ × ℚ)) (n : ℕ)
    (u : ℕ → ℕ → ℚ) : List (List ℚ) :=
  (unitTable u n bounds.length).map (scaleRow bounds)

/-- `sobol_sampling` (sampling.py:62-100): same scaling of a unit table. -/
def sobol_sampling (bounds : List (ℚ × ℚ)) (n : ℕ)
    (u : ℕ → ℕ → ℚ) : List (List ℚ) :=
  (unitTable u n bounds.length).map (scaleRow bounds)

/-- `halton_sampling` (sampling.py:174-208): same scaling of a unit table. -/
def halton_sampling (bounds : List (ℚ × ℚ)) (n : ℕ)
    (u : ℕ → ℕ → ℚ) : List (List ℚ) :=
  (unitTable u n bounds.length).map (scaleRow bounds)

/-- `uniform_random_sampling` (sampling.py:103-131):
`np.random.uniform(lower, upper)` is `lower + (upper − lower) * unit draw`. -/
def uniform_random_sampling (bounds : List (ℚ × ℚ)) (n : ℕ)
    (u : ℕ → ℕ → ℚ) : List (List ℚ) :=
  (unitTable u n bounds.length).map (scaleRow bounds)

/-- `np.linspace(l, u, k)`: `k` evenly spaced points from `l` to `u`. -/
def linspace (l u : ℚ) (k : ℕ) : List ℚ :=
  if k = 0 then []
  else if k = 1 then [l]
  else (List.range k).map (fun i : ℕ => l + (u - l) * i / ((k : ℚ) - 1))

/-- Cartesian product of per-dimension grids, first dimension slowest —
the row order of `np.meshgrid(..., indexing="ij")` after `ravel` and
`column_stack` (sampling.py:162-165). -/
def cartProd : List (List ℚ) → List (List ℚ)
  | [] => [[]]
  | xs :: rest => xs.flatMap (fun x => (cartProd rest).map (fun r => x :: r))

/-- `uniform_grid_sampling` (sampling.py:134-171): the full factorial grid of
per-dimension `linspace`s, `k^d` rows. -/
def uniform_grid_sampling (bounds : List (ℚ × ℚ)) (k : ℕ) : List (List ℚ) :=
  cartProd (bounds.map (fun b => linspace b.1 b.2 k))

/-- `int(np.ceil(n ** (1 / d)))` (sampling.py:324) in exact arithmetic:
the least `k ≤ n` with `n ≤ k ^ d`, i.e. `⌈n^(1/d)⌉` for `d ≥ 1`. -/
def ceilRoot (n d : ℕ) : ℕ :=
  (((List.range (n + 1)).find? (fun k => n ≤ k ^ d)).getD 0)

/-- Row `t` of `np.unravel_index(range(s^d), (s,)*d)).T` (sampling.py:242-245):
the `d` base-`s` digits of `t`, most significant first. -/
def digits (s d t : ℕ) : List ℕ :=
  (List.range d).map (fun j => t / s ^ (d - 1 - j) % s)

/-- One stratified sample row (sampling.py:249-260): per dimension, a uniform
draw inside the stratum `[lower + idx·w, lower + (idx+1)·w]`,
`w = (upper − lower)/s`. -/
def stratumRow (bounds : List (ℚ × ℚ)) (s : ℕ) (idx : List ℕ)
    (draw : ℕ → ℚ) : List ℚ :=
  (List.range bounds.length).map (fun i =>
    let b := bounds.getD i (0, 0)
    let w := (b.2 - b.1) / s
    b.1 + (idx.getD i 0) * w + draw i * w)

/-- `stratified_sampling` (sampling.py:211-270): `max 1 (n / s^d)` rows per
stratum over all `s^d` strata, stopping once `n` rows exist and truncating
to `n` (`samples[:n_samples]`); the early `break`s make the result exactly
the first `n` rows of the full nested loop. -/
def stratified_sampling (bounds : List (ℚ × ℚ)) (n s : ℕ)
    (u : ℕ → ℕ → ℕ → ℚ) : List (List ℚ) :=
  let d := bounds.length
  let total := s ^ d
  let spp := max 1 (n / total)
  (((List.range total).flatMap (fun t =>
    (List.range spp).map (fun j => stratumRow bounds s (digits s d t) (u t j)))).take n)

/-- The supported method names of `ParameterSampler` (sampling.py:316-333). -/
inductive Method
  | lhs
  | sobol
  | random
  | grid
  | halton
  | stratified
deriving DecidableEq

/-- `ParameterSampler.sample` (sampling.py:305-333): dispatch on the
configured method; `grid` first converts the requested count into a
per-dimension level count `⌈n^(1/d)⌉`. -/
def sample (method : Method) (bounds : List (ℚ × ℚ)) (n nStrata : ℕ)
    (u : ℕ → ℕ → ℚ) (us : ℕ → ℕ → ℕ → ℚ) : List (List ℚ) :=
  match method with
  | .lhs => latin_hypercube_sampling bounds n u
  | .sobol => sobol_sampling bounds n u
  | .random => uniform_random_sampling bounds n u
  | .grid => uniform_grid_sampling bounds (ceilRoot n bounds.length)
  | .halton => halton_sampling bounds n u
  | .stratified => stratified_sampling bounds n nStrata us

theorem scaleRow_length (bounds : List (ℚ × ℚ)) (row : List ℚ)
    (h : row.length = bounds.length) :
    (scaleRow bounds row).length = bounds.length := by
  simp [scaleRow, h]

theorem unit_scaled_length (bounds : List (ℚ × ℚ)) (n : ℕ) (u : ℕ → ℕ → ℚ) :
    ((unitTable u n bounds.length).map (scaleRow bounds)).length = n ∧
    ∀ row ∈ (unitTable u n bounds.length).map (scaleRow bounds),
      row.length = bounds.length := by
  constructor
  · simp [unitTable]
  · intro row hrow
    obtain ⟨r, hr, rfl⟩ := List.mem_map.mp hrow
    obtain ⟨i, _, rfl⟩ := List.mem_map.mp hr
    exact scaleRow_length _ _ (by simp)

theorem linspace_length (l u : ℚ) (k : ℕ) : (linspace l u k).length = k := by
  unfold linspace
  rcases Nat.eq_zero_or_pos k with h | h
  · simp [h]
  · rcases Nat.eq_or_lt_of_le h with h1 | h1
    · simp [← h1]
    · rw [if_neg (by omega), if_neg (by omega)]
      rw [List.length_map, List.length_range]

theorem sum_map_const_nat {α : Type} (l : List α) (c : ℕ) :
    (l.map (fun _ => c)).sum = l.length * c := by
  induction l with
  | nil => simp
  | cons x xs ih => simp [ih]; ring

theorem prod_map_const_nat {α : Type} (l : List α) (c : ℕ) :
    (l.map (fun _ => c)).prod = c ^ l.length := by
  induction l with
  | nil => simp
  | cons x xs ih => simp [ih]; ring

theorem cartProd_length (ls : List (List ℚ)) :
    (cartProd ls).length = (ls.map List.length).prod := by
  induction ls with
  | nil => simp [cartProd]
  | cons xs rest ih =>
    show (xs.flatMap fun x => (cartProd rest).map (x :: ·)).length = _
    rw [List.length_flatMap]
    have hmap : (xs.map (List.length ∘ fun x => (cartProd rest).map (x :: ·)))
        = xs.map (fun _ => (cartProd rest).length) := by
      apply List.map_congr_left
      intro a _
      simp [Function.comp]
    rw [hmap, sum_map_const_nat, ih]
    simp

theorem cartProd_row_length (ls : List (List ℚ)) :
    ∀ row ∈ cartProd ls, row.length = ls.length := by
  induction ls with
  | nil => simp [cartProd]
  | cons xs rest ih =>
    intro row hrow
    simp only [cartProd, List.mem_flatMap, List.mem_map] at hrow
    obtain ⟨x, _, r, hr, rfl⟩ := hrow
    simp [ih r hr]

theorem stratumRow_length (bounds : List (ℚ × ℚ)) (s : ℕ) (idx : List ℕ)
    (draw : ℕ → ℚ) : (stratumRow bounds s idx draw).length = bounds.length := by
  simp [stratumRow]

theorem stratified_sampling_length (bounds : List (ℚ × ℚ)) (n s : ℕ)
    (u : ℕ → ℕ → ℕ → ℚ) :
    (stratified_sampling bounds n s u).length
      = min n (s ^ bounds.length * max 1 (n / s ^ bounds.length)) := by
  unfold stratified_sampling
  rw [List.length_take, List.length_flatMap]
  congr 1
  have hmap : ((List.range (s ^ bounds.length)).map
      (List.length ∘ fun t => (List.range (max 1 (n / s ^ bounds.length))).map
        (fun j => stratumRow bounds s (digits s bounds.length t) (u t j))))
      = (List.range (s ^ bounds.length)).map
          (fun _ => max 1 (n / s ^ bounds.length)) := by
    apply List.map_congr_left
    intro t _
    simp [Function.comp]
  rw [hmap, sum_map_const_nat, List.length_range]

end Sampling

/-- C8 counterexample: with two parameters and requested count `n_samples = 5`
the `grid` method returns `⌈√5⌉² = 9` rows, not 5, so
`ParameterSampler.sample` does not return exactly `n_samples` rows for every
supported method and requested count. -/
theorem sampler_shape_counterexample :
    (Sampling.sample .grid [((0 : ℚ), 1), ((0 : ℚ), 1)] 5 5
      (fun _ _ => 0) (fun _ _ _ => 0)).length = 9 ∧ (9 : ℕ) ≠ 5 := by
  constructor
  · decide
  · decide

/-- C8 (amended): `ParameterSampler.sample` always returns rows of width
`len(bounds)`; the `lhs`, `sobol`, `random` and `halton` methods return
exactly `n_samples` rows, while `grid` returns `⌈n_samples^(1/d)⌉^d` rows and
`stratified` returns `min n_samples (s^d · max 1 (n_samples / s^d))` rows
(`s` strata per dimension), which can differ from `n_samples`. -/
theorem sampler_shape (bounds : List (ℚ × ℚ)) (n s : ℕ)
    (u : ℕ → ℕ → ℚ) (us : ℕ → ℕ → ℕ → ℚ) :
    (Sampling.sample .lhs bounds n s u us).length = n ∧
    (Sampling.sample .sobol bounds n s u us).length = n ∧
    (Sampling.sample .random bounds n s u us).length = n ∧
    (Sampling.sample .halton bounds n s u us).length = n ∧
    (Sampling.sample .grid bounds n s u us).length
      = Sampling.ceilRoot n bounds.length ^ bounds.length ∧
    (Sampling.sample .stratified bounds n s u us).length
      = min n (s ^ bounds.length * max 1 (n / s ^ bounds.length)) ∧
    (∀ m : Sampling.Method, ∀ row ∈ Sampling.sample m bounds n s u us,
      row.length = bounds.length) := by
  refine ⟨(Sampling.unit_scaled_length bounds n u).1,
    (Sampling.unit_scaled_length bounds n u).1,
    (Sampling.unit_scaled_length bounds n u).1,
    (Sampling.unit_scaled_length bounds n u).1, ?_, ?_, ?_⟩
  · show (Sampling.uniform_grid_sampling bounds _).length = _
    unfold Sampling.uniform_grid_sampling
    rw [Sampling.cartProd_length]
    have : (bounds.map (fun b => Sampling.linspace b.1 b.2
        (Sampling.ceilRoot n bounds.length))).map List.length
        = bounds.map (fun _ => Sampling.ceilRoot n bounds.length) := by
      rw [List.map_map]
      apply List.map_congr_left
      intro b _
      simp [Sampling.linspace_length]
    rw [this, Sampling.prod_map_const_nat]
  · exact Sampling.stratified_sampling_length bounds n s us
  · intro m row hrow
    cases m with
    | lhs => exact (Sampling.unit_scaled_length bounds n u).2 row hrow
    | sobol => exact (Sampling.unit_scaled_length bounds n u).2 row hrow
    | random => exact (Sampling.unit_scaled_length bounds n u).2 row hrow
    | halton => exact (Sampling.unit_scaled_length bounds n u).2 row hrow
    | grid =>
      have hrow2 : row ∈ Sampling.cartProd (bounds.map (fun b =>
          Sampling.linspace b.1 b.2 (Sampling.ceilRoot n bounds.length))) := hrow
      have := Sampling.cartProd_row_length _ row hrow2
      simpa using this
    | stratified =>
      have hrow2 := List.mem_of_mem_take hrow
      simp only [List.mem_flatMap, List.mem_map] at hrow2
      obtain ⟨t, _, j, _, rfl⟩ := hrow2
      exact Sampling.stratumRow_length _ _ _ _

/-- Witness for the amended C8: the sampler at one parameter, one requested
sample, gives a 1×1 table for the `lhs` method, and its row has width 1. -/
theorem sampler_shape_witness :
    (Sampling.sample .lhs [((0 : ℚ), 1)] 1 1
      (fun _ _ => 0) (fun _ _ _ => 0)).length = 1 ∧
    ([(0 : ℚ)].length = 1) :=
  ⟨(sampler_shape [((0 : ℚ), 1)] 1 1 (fun _ _ => 0) (fun _ _ _ => 0)).1,
   (sampler_shape [((0 : ℚ), 1)] 1 1 (fun _ _ => 0) (fun _ _ _ => 0)).2.2.2.2.2.2
     .lhs [(0 : ℚ)]
     (by simp [Sampling.sample, Sampling.latin_hypercube_sampling,
       Sampling.unitTable, Sampling.scaleRow, List.range_succ])⟩

/-! ## Parallel Execution Engine (`core/parallel_engine.py`)

`ParallelSWATRunner.run_parallel` submits one task per parameter set and
collects futures with `as_completed`, which yields each future exactly once
in an arbitrary completion order.  The concurrency is modelled by
quantifying over that completion order: `order` is any permutation of the
task indices `0..n-1`.  The behaviour of one task — its simulator payload or
the exception it raises — is `outcome i`; payloads are an abstract type `α`
since the simulator itself is an external collaborator. -/

namespace Parallel

/-- One aggregated entry: either the payload dict the worker returned, or
the failure record `{'success': False, 'run_id': i, 'error': e}` that both
`_run_single` (parallel_engine.py:158-164) and the pool-side `except`
(parallel_engine.py:113-119) build for a raised exception. -/
inductive TaskResult (α : Type) where
  | ok (payload : α)
  | failed (runId : ℕ) (error : String)
deriving DecidableEq

/-- The per-task exception boundary: `_run_single` returns the simulation
result, converting a raised exception into that task's failure record. -/
def runSingle {α : Type} (runId : ℕ) (outcome : Except String α) :
    TaskResult α :=
  match outcome with
  | .ok r => .ok r
  | .error e => .failed runId e

/-- `run_parallel` (parallel_engine.py:62-143): `results = [None] * n_runs`,
then for each completed future (in completion order) store that task's
result at its own `run_id` slot. -/
def runParallel {α : Type} (n : ℕ) (outcome : ℕ → Except String α)
    (order : List ℕ) : List (Option (TaskResult α)) :=
  order.foldl (fun results i => results.set i (some (runSingle i (outcome i))))
    (List.replicate n none)

theorem foldl_set_length {β : Type} (f : ℕ → β) (order : List ℕ)
    (init : List β) :
    (order.foldl (fun r j => r.set j (f j)) init).length = init.length := by
  induction order generalizing init with
  | nil => rfl
  | cons j rest ih => simp [List.foldl_cons, ih]

theorem foldl_set_preserve {β : Type} (f : ℕ → β) (ks : List ℕ) (j : ℕ)
    (hj : j ∉ ks) :
    ∀ init : List β, init[j]? = some (f j) →
      (ks.foldl (fun r k => r.set k (f k)) init)[j]? = some (f j) := by
  induction ks with
  | nil => intro init h; exact h
  | cons k ks ihk =>
    intro init h
    rw [List.foldl_cons]
    apply ihk (fun hmem => hj (List.mem_cons_of_mem k hmem))
    rw [List.getElem?_set]
    have hkj : ¬ k = j := fun hkj => hj (hkj ▸ List.mem_cons_self k ks)
    rw [if_neg hkj]
    exact h

theorem foldl_set_getElem {β : Type} (f : ℕ → β) (order : List ℕ)
    (init : List β) (i : ℕ) (hi : i < init.length) (hmem : i ∈ order) :
    (order.foldl (fun r j => r.set j (f j)) init)[i]? = some (f i) := by
  induction order generalizing init with
  | nil => cases hmem
  | cons j rest ih =>
    rw [List.foldl_cons]
    by_cases hij : i ∈ rest
    · exact ih (init.set j (f j)) (by simp [hi]) hij
    · have hji : j = i := by
        rcases List.mem_cons.mp hmem with h | h
        · exact h.symm
        · exact absurd h hij
      subst hji
      apply foldl_set_preserve f rest j hij
      rw [List.getElem?_set]
      simp [hi]

end Parallel

/-- C9: for every batch of `n` tasks and every completion order (any
permutation of the task indices), the aggregated sequence has exactly one
entry per task, placed at the task's original index and determined solely by
that task's own outcome; a task that raises is recorded as the failure
record at its own index only, and every other index keeps its own task's
result. -/
theorem parallel_results_in_order {α : Type} (n : ℕ)
    (outcome : ℕ → Except String α) (order : List ℕ)
    (hperm : order.Perm (List.range n)) :
    (Parallel.runParallel n outcome order).length = n ∧
    (∀ i, i < n → (Parallel.runParallel n outcome order)[i]?
        = some (some (Parallel.runSingle i (outcome i)))) ∧
    (∀ i e, i < n → outcome i = .error e →
      (Parallel.runParallel n outcome order)[i]?
        = some (some (Parallel.TaskResult.failed i e))) := by
  have hlen : (Parallel.runParallel n outcome order).length = n := by
    unfold Parallel.runParallel
    rw [Parallel.foldl_set_length]
    exact List.length_replicate n none
  have hmain : ∀ i, i < n → (Parallel.runParallel n outcome order)[i]?
      = some (some (Parallel.runSingle i (outcome i))) := by
    intro i hi
    unfold Parallel.runParallel
    apply Parallel.foldl_set_getElem
    · simpa using hi
    · exact hperm.mem_iff.mpr (List.mem_range.mpr hi)
  refine ⟨hlen, hmain, ?_⟩
  intro i e hi herr
  rw [hmain i hi, herr]
  rfl

/-- Witness for C9: three tasks completing in the order `[2, 0, 1]`, task 1
raising an exception, aggregate to three entries in original index order with
the failure record exactly at index 1. -/
theorem parallel_results_in_order_witness :
    (Parallel.runParallel 3
      (fun i => if i = 1 then Except.error "boom" else Except.ok i)
      [2, 0, 1]).length = 3 ∧
    (Parallel.runParallel 3
      (fun i => if i = 1 then Except.error "boom" else Except.ok i)
      [2, 0, 1])[1]? = some (some (Parallel.TaskResult.failed 1 "boom")) ∧
    (Parallel.runParallel 3
      (fun i => if i = 1 then Except.error "boom" else Except.ok i)
      [2, 0, 1])[2]? = some (some (Parallel.TaskResult.ok 2)) := by
  have h := parallel_results_in_order 3
    (fun i => if i = 1 then Except.error "boom" else Except.ok i)
    [2, 0, 1] (by decide)
  refine ⟨h.1, ?_, ?_⟩
  · exact h.2.2 1 "boom" (by decide) rfl
  · exact h.2.1 2 (by decide)

/-- C5: in both the DDS and the PSO acceptance test, a NaN objective value is
never judged better than any finite incumbent: for every finite incumbent `v`
and in both maximize and minimize mode, comparing NaN against `v` yields
`false`, so a NaN evaluation never replaces a finite best-so-far. -/
theorem nan_never_better_than_finite_incumbent :
    ∀ (maximize : Bool) (v : ℚ),
      DDS.isBetter maximize none (some v) = false ∧
      PSO.isBetter maximize none (some v) = false := by
  intro maximize v
  cases maximize <;> simp [DDS.isBetter, PSO.isBetter, valGt, valLt]

/-! ## Run-result dictionary shapes (C7) -/

theorem dds_loop_error_prefix (bounds : List (ℚ × ℚ))
    (objective : List ℚ → Except String Val) (maximize : Bool) :
    ∀ (iters : List DDS.IterDraws) (t : ℕ) (st st' : DDS.State) (e : String),
      DDS.loop bounds objective maximize t iters st = .error (st', e) →
      ∃ k, k ≤ iters.length ∧
        DDS.loop bounds objective maximize t (iters.take k) st = .ok st' := by
  intro iters
  induction iters with
  | nil =>
    intro t st st' e h
    simp [DDS.loop] at h
  | cons dr rest ih =>
    intro t st st' e h
    rw [DDS.loop] at h
    cases hs : DDS.iterStep bounds objective maximize t dr st with
    | error p =>
      rw [hs] at h
      simp only [Except.error.injEq] at h
      have hst : p.1 = st := by
        simp only [DDS.iterStep] at hs
        cases hobj2 : objective (DDS.perturb bounds st.bestParams
            (DDS.forceMask dr.mask dr.fallback) dr.draws) with
        | error e2 =>
          rw [hobj2] at hs
          simp only [Except.error.injEq] at hs
          rw [← hs]
        | ok v =>
          rw [hobj2] at hs
          simp at hs
      refine ⟨0, by omega, ?_⟩
      rw [List.take_zero]
      have : st' = p.1 := by rw [h]
      rw [this, hst]
      rfl
    | ok st2 =>
      rw [hs] at h
      obtain ⟨k, hk, hpfx⟩ := ih (t + 1) st2 st' e h
      refine ⟨k + 1, by simpa using hk, ?_⟩
      rw [List.take_succ_cons, DDS.loop, hs]
      exact hpfx

theorem dds_failDict_keys (a : Option (List ℚ)) (b : Option Val)
    (h : List DDS.HistEntry) (e : String) :
    (DDS.failDict a b h e).map Prod.fst
      = ["best_params", "best_value", "n_evaluations", "history", "success",
         "error"] := rfl

theorem dds_successDict_keys (n : ℕ) (st : DDS.State) :
    (DDS.successDict n st).map Prod.fst
      = ["best_params", "best_value", "n_evaluations", "history", "success",
         "duration"] := rfl

theorem dds_lookup_failDict_success (a : Option (List ℚ)) (b : Option Val)
    (h : List DDS.HistEntry) (e : String) :
    DDS.lookup (DDS.failDict a b h e) "success" = some (.bool false) := rfl

theorem dds_lookup_successDict_success (n : ℕ) (st : DDS.State) :
    DDS.lookup (DDS.successDict n st) "success" = some (.bool true) := rfl

theorem dds_lookup_failDict_duration (a : Option (List ℚ)) (b : Option Val)
    (h : List DDS.HistEntry) (e : String) :
    DDS.lookup (DDS.failDict a b h e) "duration" = none := rfl

theorem dds_result_keys (bounds : List (ℚ × ℚ))
    (objective : List ℚ → Except String Val) (maximize : Bool)
    (initParams : List ℚ) (iters : List DDS.IterDraws) :
    (DDS.lookup (DDS.optimize bounds objective maximize initParams iters)
        "success" = some (.bool true) →
      (DDS.optimize bounds objective maximize initParams iters).map Prod.fst
        = ["best_params", "best_value", "n_evaluations", "history",
           "success", "duration"]) ∧
    (DDS.lookup (DDS.optimize bounds objective maximize initParams iters)
        "success" = some (.bool false) →
      (DDS.optimize bounds objective maximize initParams iters).map Prod.fst
        = ["best_params", "best_value", "n_evaluations", "history",
           "success", "error"] ∧
      DDS.lookup (DDS.optimize bounds objective maximize initParams iters)
        "duration" = none) := by
  cases hobj : objective initParams with
  | error e =>
    have hres : DDS.optimize bounds objective maximize initParams iters
        = DDS.failDict none none [] e := by
      unfold DDS.optimize
      rw [hobj]
    rw [hres]
    constructor
    · intro h
      rw [dds_lookup_failDict_success] at h
      simp at h
    · intro h
      exact ⟨dds_failDict_keys none none [] e,
        dds_lookup_failDict_duration none none [] e⟩
  | ok v0 =>
    have hopt : DDS.optimize bounds objective maximize initParams iters
        = (match DDS.loop bounds objective maximize 1 iters
            (DDS.updateHistory (⟨initParams, v0, [], 1⟩ : DDS.State) 0
              initParams v0 0) with
          | .ok st => DDS.successDict iters.length st
          | .error (st, e) => DDS.failDict (some st.bestParams)
              (some st.bestValue) st.history e) := by
      unfold DDS.optimize
      rw [hobj]
    cases hloop : DDS.loop bounds objective maximize 1 iters
        (DDS.updateHistory (⟨initParams, v0, [], 1⟩ : DDS.State) 0
          initParams v0 0) with
    | ok st =>
      rw [hopt, hloop]
      constructor
      · intro _
        exact dds_successDict_keys iters.length st
      · intro h
        rw [dds_lookup_successDict_success] at h
        simp at h
    | error pe =>
      obtain ⟨st, e⟩ := pe
      rw [hopt, hloop]
      constructor
      · intro h
        rw [dds_lookup_failDict_success] at h
        simp at h
      · intro _
        exact ⟨dds_failDict_keys _ _ _ _, dds_lookup_failDict_duration _ _ _ _⟩

theorem pso_result_keys (bounds : List (ℚ × ℚ))
    (objective : List ℚ → Except String Val) (nP nIter : ℕ) (w c1 c2 : ℚ)
    (maximize : Bool) (pu vu : ℕ → ℕ → ℚ) (rs : ℕ → ℕ → ℚ × ℚ) :
    (PSO.lookup (PSO.optimize bounds objective nP nIter w c1 c2 maximize pu
        vu rs) "success" = some (.bool true) →
      (PSO.optimize bounds objective nP nIter w c1 c2 maximize pu vu
        rs).map Prod.fst
        = ["best_params", "best_value", "n_evaluations", "history",
           "success", "duration"]) ∧
    (PSO.lookup (PSO.optimize bounds objective nP nIter w c1 c2 maximize pu
        vu rs) "success" = some (.bool false) →
      (PSO.optimize bounds objective nP nIter w c1 c2 maximize pu vu
        rs).map Prod.fst
        = ["best_params", "best_value", "n_evaluations", "history",
           "success", "error"] ∧
      PSO.lookup (PSO.optimize bounds objective nP nIter w c1 c2 maximize pu
        vu rs) "duration" = none) := by
  cases hev : PSO.evalAll objective (PSO.initSwarm bounds nP pu vu).1 with
  | error e =>
    have hres : PSO.optimize bounds objective nP nIter w c1 c2 maximize pu
        vu rs
        = [("best_params", .params none), ("best_value", .val none),
           ("n_evaluations", .nat 0), ("history", .hist []),
           ("success", .bool false), ("error", .str e)] := by
      simp only [PSO.optimize]
      rw [hev]
    rw [hres]
    constructor
    · intro h
      simp [PSO.lookup] at h
    · intro _
      exact ⟨rfl, rfl⟩
  | ok fits =>
    have hopt : PSO.optimize bounds objective nP nIter w c1 c2 maximize
        pu vu rs
        = (match PSO.iterLoop bounds objective w c1 c2 maximize nP rs
            (List.range nIter)
            (⟨(PSO.initSwarm bounds nP pu vu).1,
              (PSO.initSwarm bounds nP pu vu).2, fits,
              (PSO.initSwarm bounds nP pu vu).1, fits,
              (PSO.initSwarm bounds nP pu vu).1.getD
                (if maximize then PSO.argmax fits else PSO.argmin fits) [],
              fits.getD
                (if maximize then PSO.argmax fits else PSO.argmin fits)
                none, [], nP⟩ : PSO.PState) with
          | .ok st =>
              [("best_params", .params (some st.globalBestPos)),
               ("best_value", .val (some st.globalBestVal)),
               ("n_evaluations", .nat (nP * nIter)),
               ("history", .hist st.history),
               ("success", .bool true), ("duration", .dur)]
          | .error (st, e) =>
              [("best_params", .params (some st.globalBestPos)),
               ("best_value", .val (some st.globalBestVal)),
               ("n_evaluations", .nat (st.history.length * nP)),
               ("history", .hist st.history),
               ("success", .bool false), ("error", .str e)]) := by
      simp only [PSO.optimize]
      rw [hev]
    cases hloop : PSO.iterLoop bounds objective w c1 c2 maximize nP rs
        (List.range nIter)
        (⟨(PSO.initSwarm bounds nP pu vu).1,
          (PSO.initSwarm bounds nP pu vu).2, fits,
          (PSO.initSwarm bounds nP pu vu).1, fits,
          (PSO.initSwarm bounds nP pu vu).1.getD
            (if maximize then PSO.argmax fits else PSO.argmin fits) [],
          fits.getD (if maximize then PSO.argmax fits else PSO.argmin fits)
            none, [], nP⟩ : PSO.PState) with
    | ok st =>
      rw [hopt, hloop]
      constructor
      · intro _
        rfl
      · intro h
        simp [PSO.lookup] at h
    | error pe =>
      obtain ⟨st, e⟩ := pe
      rw [hopt, hloop]
      constructor
      · intro h
        simp [PSO.lookup] at h
      · intro _
        exact ⟨rfl, rfl⟩

theorem glue_result_keys (bounds : List (ℝ × ℝ))
    (objective : List ℝ → Except String GLUE.OVal) (threshold : ℝ)
    (maximize : Bool) (samples : List (List ℝ)) (method : GLUE.LikMethod)
    (pct : ℝ → List (List ℝ) → List ℝ) :
    (∀ vals, GLUE.evalAllR objective samples = .ok vals →
      (GLUE.run bounds objective threshold maximize samples method
        pct).map Prod.fst
        = ["parameter_sets", "objective_values", "behavioral_mask",
           "likelihood_weights", "n_behavioral", "behavioral_rate",
           "threshold", "bounds_95", "bounds_90", "best_params",
           "best_value", "duration", "success"]) ∧
    (∀ e, GLUE.evalAllR objective samples = .error e →
      (GLUE.run bounds objective threshold maximize samples method
        pct).map Prod.fst = ["success", "error"]) := by
  constructor
  · intro vals hev
    have hres : GLUE.run bounds objective threshold maximize samples method
        pct
        = (match Except.ok (ε := String) vals with
          | .error e => [("success", GLUE.GVal.bool false),
              ("error", GLUE.GVal.str e)]
          | .ok vals =>
              [("parameter_sets", .mat samples),
               ("objective_values", .ovals vals),
               ("behavioral_mask",
                 .bmask (GLUE.behavioralMask maximize threshold vals)),
               ("likelihood_weights",
                 .ovals (GLUE.calcWeights method maximize threshold vals
                   (GLUE.behavioralMask maximize threshold vals))),
               ("n_behavioral",
                 .nat ((GLUE.behavioralMask maximize threshold
                   vals).count true)),
               ("behavioral_rate", .num (100 *
                 ((GLUE.behavioralMask maximize threshold vals).count true)
                   / samples.length)),
               ("threshold", .num threshold),
               ("bounds_95", .ub (GLUE.uncertaintyBounds 95 samples
                 (GLUE.behavioralMask maximize threshold vals) pct)),
               ("bounds_90", .ub (GLUE.uncertaintyBounds 90 samples
                 (GLUE.behavioralMask maximize threshold vals) pct)),
               ("best_params",
                 .params (samples.getD (GLUE.argmaxR vals) [])),
               ("best_value", .oval (GLUE.foldMaxR vals)),
               ("duration", .dur),
               ("success", .bool true)]) := by
      simp only [GLUE.run]
      rw [hev]
    rw [hres]
    rfl
  · intro e hev
    have hres : GLUE.run bounds objective threshold maximize samples method
        pct = [("success", GLUE.GVal.bool false),
               ("error", GLUE.GVal.str e)] := by
      simp only [GLUE.run]
      rw [hev]
    rw [hres]
    rfl

/-- C7 counterexample: a DDS run whose scoring callable raises at the very
first evaluation returns a failure dictionary with `success = false` that
has NO `duration` entry — the claim that every result, on success and
failure alike, contains `duration` is false (the failure dictionaries of
DDS and PSO omit it, dds.py:222-229 and pso.py:196-203). -/
theorem run_result_fields_counterexample :
    DDS.lookup (DDS.optimize [((0 : ℚ), 1)]
        (fun _ => Except.error "sim crashed") true [0] []) "success"
      = some (.bool false) ∧
    DDS.lookup (DDS.optimize [((0 : ℚ), 1)]
        (fun _ => Except.error "sim crashed") true [0] []) "duration"
      = none :=
  ⟨rfl, rfl⟩

/-- C7 (amended): every DDS and PSO success result contains exactly the
fields best_params, best_value, n_evaluations, history, success and
duration; their failure results contain the same fields except `duration`,
plus `error`, and carry the best-so-far state: the state a failing DDS run
reports is the state reached by the error-free prefix of its iterations.
GLUE returns a 13-field dictionary on success (including best_params,
best_value, duration and success but neither n_evaluations nor history) and
only `{success, error}` on failure. -/
theorem run_result_field_shapes :
    (∀ (bounds : List (ℚ × ℚ)) (objective : List ℚ → Except String Val)
        (maximize : Bool) (initParams : List ℚ)
        (iters : List DDS.IterDraws),
      (DDS.lookup (DDS.optimize bounds objective maximize initParams iters)
          "success" = some (.bool true) →
        (DDS.optimize bounds objective maximize initParams iters).map
          Prod.fst
          = ["best_params", "best_value", "n_evaluations", "history",
             "success", "duration"]) ∧
      (DDS.lookup (DDS.optimize bounds objective maximize initParams iters)
          "success" = some (.bool false) →
        (DDS.optimize bounds objective maximize initParams iters).map
          Prod.fst
          = ["best_params", "best_value", "n_evaluations", "history",
             "success", "error"] ∧
        DDS.lookup (DDS.optimize bounds objective maximize initParams
          iters) "duration" = none)) ∧
    (∀ (bounds : List (ℚ × ℚ)) (objective : List ℚ → Except String Val)
        (nP nIter : ℕ) (w c1 c2 : ℚ) (maximize : Bool)
        (pu vu : ℕ → ℕ → ℚ) (rs : ℕ → ℕ → ℚ × ℚ),
      (PSO.lookup (PSO.optimize bounds objective nP nIter w c1 c2 maximize
          pu vu rs) "success" = some (.bool true) →
        (PSO.optimize bounds objective nP nIter w c1 c2 maximize pu vu
          rs).map Prod.fst
          = ["best_params", "best_value", "n_evaluations", "history",
             "success", "duration"]) ∧
      (PSO.lookup (PSO.optimize bounds objective nP nIter w c1 c2 maximize
          pu vu rs) "success" = some (.bool false) →
        (PSO.optimize bounds objective nP nIter w c1 c2 maximize pu vu
          rs).map Prod.fst
          = ["best_params", "best_value", "n_evaluations", "history",
             "success", "error"] ∧
        PSO.lookup (PSO.optimize bounds objective nP nIter w c1 c2 maximize
          pu vu rs) "duration" = none)) ∧
    (∀ (bounds : List (ℝ × ℝ))
        (objective : List ℝ → Except String GLUE.OVal) (threshold : ℝ)
        (maximize : Bool) (samples : List (List ℝ))
        (method : GLUE.LikMethod) (pct : ℝ → List (List ℝ) → List ℝ),
      (∀ vals, GLUE.evalAllR objective samples = .ok vals →
        (GLUE.run bounds objective threshold maximize samples method
          pct).map Prod.fst
          = ["parameter_sets", "objective_values", "behavioral_mask",
             "likelihood_weights", "n_behavioral", "behavioral_rate",
             "threshold", "bounds_95", "bounds_90", "best_params",
             "best_value", "duration", "success"]) ∧
      (∀ e, GLUE.evalAllR objective samples = .error e →
        (GLUE.run bounds objective threshold maximize samples method
          pct).map Prod.fst = ["success", "error"])) ∧
    (∀ (bounds : List (ℚ × ℚ)) (objective : List ℚ → Except String Val)
        (maximize : Bool) (initParams : List ℚ)
        (iters : List DDS.IterDraws) (v0 : Val) (st : DDS.State)
        (e : String),
      objective initParams = .ok v0 →
      DDS.loop bounds objective maximize 1 iters
        (DDS.updateHistory (⟨initParams, v0, [], 1⟩ : DDS.State) 0
          initParams v0 0) = .error (st, e) →
      DDS.optimize bounds objective maximize initParams iters
        = DDS.failDict (some st.bestParams) (some st.bestValue)
            st.history e ∧
      ∃ k, k ≤ iters.length ∧ DDS.loop bounds objective maximize 1
        (iters.take k) (DDS.updateHistory (⟨initParams, v0, [], 1⟩ :
          DDS.State) 0 initParams v0 0) = .ok st) := by
  refine ⟨dds_result_keys, pso_result_keys, glue_result_keys, ?_⟩
  intro bounds objective maximize initParams iters v0 st e hobj hloop
  have hopt : DDS.optimize bounds objective maximize initParams iters
      = (match DDS.loop bounds objective maximize 1 iters
          (DDS.updateHistory (⟨initParams, v0, [], 1⟩ : DDS.State) 0
            initParams v0 0) with
        | .ok st => DDS.successDict iters.length st
        | .error (st, e) => DDS.failDict (some st.bestParams)
            (some st.bestValue) st.history e) := by
    unfold DDS.optimize
    rw [hobj]
  refine ⟨by rw [hopt, hloop], ?_⟩
  exact dds_loop_error_prefix bounds objective maximize iters 1 _ st e hloop

/-- Witness for the amended C7 at concrete runs: a failing DDS run (error
at iteration 1) returns the six failure fields with the pre-failure best
state and its error-free prefix is the empty iteration list; a failing PSO
run and an empty-batch GLUE run show the other dictionary shapes. -/
theorem run_result_field_shapes_witness :
    ((DDS.optimize [((0 : ℚ), 1)]
        (fun p => if p = [0] then Except.ok (some 0)
          else Except.error "boom") true [0] [⟨[true], 0, [1]⟩]).map
      Prod.fst
      = ["best_params", "best_value", "n_evaluations", "history",
         "success", "error"]) ∧
    (DDS.optimize [((0 : ℚ), 1)]
        (fun p => if p = [0] then Except.ok (some 0)
          else Except.error "boom") true [0] [⟨[true], 0, [1]⟩]
      = DDS.failDict (some [0]) (some (some 0))
          [⟨0, some 0, some 0, 0, [0]⟩] "boom") ∧
    (∃ k, k ≤ 1 ∧ DDS.loop [((0 : ℚ), 1)]
        (fun p => if p = [0] then Except.ok (some 0)
          else Except.error "boom") true 1
        (List.take k [⟨[true], 0, [1]⟩])
        (DDS.updateHistory (⟨[0], some 0, [], 1⟩ : DDS.State) 0 [0]
          (some 0) 0) = .ok ⟨[0], some 0,
            [⟨0, some 0, some 0, 0, [0]⟩], 1⟩) ∧
    ((PSO.optimize [((0 : ℚ), 1)] (fun _ => Except.error "down") 2 1 0 1 1
        true (fun _ _ => 0) (fun _ _ => 0) (fun _ _ => (0, 0))).map
      Prod.fst
      = ["best_params", "best_value", "n_evaluations", "history",
         "success", "error"]) ∧
    ((GLUE.run [((0 : ℝ), 1)] (fun _ => Except.ok (some 0)) 0 true []
        .threshold (fun _ _ => [])).map Prod.fst
      = ["parameter_sets", "objective_values", "behavioral_mask",
         "likelihood_weights", "n_behavioral", "behavioral_rate",
         "threshold", "bounds_95", "bounds_90", "best_params",
         "best_value", "duration", "success"]) := by
  have h := run_result_field_shapes
  have hrefl : DDS.reflect 0 1 ((1 : ℚ)) = 1 := by
    rw [DDS.reflect.eq_def]
    norm_num
  have hloop : DDS.loop [((0 : ℚ), 1)]
      (fun p => if p = [0] then Except.ok (some 0)
        else Except.error "boom") true 1 [⟨[true], 0, [1]⟩]
      (DDS.updateHistory (⟨[0], some 0, [], 1⟩ : DDS.State) 0 [0]
        (some 0) 0)
      = .error (⟨[0], some 0, [⟨0, some 0, some 0, 0, [0]⟩], 1⟩, "boom") := by
    norm_num [DDS.loop, DDS.iterStep, DDS.perturb, DDS.forceMask,
      DDS.updateHistory, hrefl]
  have h4 := h.2.2.2 [((0 : ℚ), 1)]
    (fun p => if p = [0] then Except.ok (some 0) else Except.error "boom")
    true [0] [⟨[true], 0, [1]⟩] (some 0)
    ⟨[0], some 0, [⟨0, some 0, some 0, 0, [0]⟩], 1⟩ "boom" rfl hloop
  have hsucc : DDS.lookup (DDS.optimize [((0 : ℚ), 1)]
      (fun p => if p = [0] then Except.ok (some 0)
        else Except.error "boom") true [0] [⟨[true], 0, [1]⟩]) "success"
      = some (.bool false) := by
    rw [h4.1]
    rfl
  have hpsosucc : PSO.lookup (PSO.optimize [((0 : ℚ), 1)]
      (fun _ => Except.error "down") 2 1 0 1 1 true (fun _ _ => 0)
      (fun _ _ => 0) (fun _ _ => (0, 0))) "success"
      = some (.bool false) := rfl
  refine ⟨(h.1 [((0 : ℚ), 1)]
      (fun p => if p = [0] then Except.ok (some 0)
        else Except.error "boom") true [0] [⟨[true], 0, [1]⟩]).2
      hsucc |>.1,
    h4.1, h4.2,
    (h.2.1 [((0 : ℚ), 1)] (fun _ => Except.error "down") 2 1 0 1 1 true
      (fun _ _ => 0) (fun _ _ => 0) (fun _ _ => (0, 0))).2 hpsosucc |>.1,
    (h.2.2.1 [((0 : ℝ), 1)] (fun _ => Except.ok (some 0)) 0 true []
      .threshold (fun _ _ => [])).1 [] rfl⟩
